import Mathlib

/-!
Verification development for the pyairpar airfoil-construction library.

Sources embedded (shallowly) from the repository:
* `pyairpar/core/base_airfoil_params.py` — `BaseAirfoilParams`: construction-time
  validation, `scale_vars`, `count_overrideable_variables`, `override`.
* `pyairpar/core/airfoil.py` — `Airfoil`: constructor geometry, `set_slope`,
  `set_curvature_le`, `set_curvature`, `order_control_points`, `add_anchor_point`,
  `add_free_point`, `translate`, `rotate`, `update`, `override`, and the module-level
  `bezier` function.

Modelling conventions:
* Python floats are modelled as `Option ℚ`: `some q` is a finite value, `none` models
  the IEEE `+inf` that the code uses for unconstrained curvature radii (`np.inf`).
  Arithmetic contexts in which the code always holds finite values read the rational
  through `val0` (default 0).
* The transcendental functions `np.cos`, `np.sin`, `np.tan`, the constant `np.pi` and
  the map `x ↦ x ** (3/2)` are not rational; they are abstracted as the fields of a
  `RealFuns` record that parametrises the whole geometric model.  Universal theorems
  quantify over every `RealFuns`; concrete counterexamples instantiate the record with
  rational functions that agree with the true transcendental values at every point at
  which the development evaluates them.
* The classes `Param`, `AnchorPoint` and `FreePoint` live in files of the repository
  that are not present under `src/`; they are modelled from the spec (see the doc
  comments on those structures).
-/

namespace PyAirPar

/-- Units enumeration of a `Param` (Python strings `None`, `'length'`,
`'inverse-length'`). -/
inductive ParamUnits where
  | unitless
  | length
  | invLength
deriving DecidableEq

@[simp] theorem unitless_ne_length : ParamUnits.unitless ≠ ParamUnits.length := by
  decide

@[simp] theorem invLength_ne_length : ParamUnits.invLength ≠ ParamUnits.length := by
  decide

@[simp] theorem length_eq_length : ParamUnits.length = ParamUnits.length := rfl

/-- Modelled from the spec: class `Param` of `pyairpar/core/param.py` (file absent
from `src/`).  Spec section 3: `{value: float, bounds: [lo, hi], active: bool,
linked: bool, units: enum{none,length,inverse-length}, scale_value: float|null}`.
`value = none` models `np.inf`; a bound of `none` models an infinite bound. -/
structure Param where
  value : Option ℚ
  bounds : Option ℚ × Option ℚ := (none, none)
  units : ParamUnits := .unitless
  active : Bool := true
  linked : Bool := false
  scale_value : Option ℚ := none
deriving DecidableEq

/-- Finite reading of a modelled float, used where the code always holds a finite
value. -/
def val0 (v : Option ℚ) : ℚ := v.getD 0

/-- Error values raised by the embedded code: the length-mismatch `Exception` of
`override` and the `ValueError` of `BaseAirfoilParams.__init__` (which reports the
offending parameter name, its legal range and the supplied value). -/
inductive Err where
  | lengthMismatch (expected got : ℕ)
  | badValue (param : String) (lo hi : ℚ) (given : Option ℚ)
deriving DecidableEq

/-- Boolean success test for `Except`. -/
def eOk {ε α : Type} (e : Except ε α) : Bool :=
  match e with
  | .ok _ => true
  | .error _ => false

/-- Criterion shared by `count_overrideable_variables`, `extract_parameters` and
`override`: `var.active and not var.linked`. -/
def overrideable (p : Param) : Bool := p.active && !p.linked

/-- Values of the overrideable parameters, in declaration order (the list
comprehension of `extract_parameters` / `override`). -/
def flattenVals (ps : List Param) : List (Option ℚ) :=
  (ps.filter overrideable).map (fun p => p.value)

/-- `count_overrideable_variables` on a declaration-ordered parameter list. -/
def countOv (ps : List Param) : ℕ := (ps.filter overrideable).length

/-- Positional assignment of `override`: each overrideable parameter consumes the
next element of the supplied value list (`setattr(param, 'value', parameters[i])`). -/
def assignVals : List Param → List (Option ℚ) → List Param
  | [], _ => []
  | p :: ps, vs =>
    if overrideable p then
      match vs with
      | [] => p :: assignVals ps []
      | v :: vs2 => { p with value := v } :: assignVals ps vs2
    else p :: assignVals ps vs

/-- The shared `override` contract on a parameter list: raise a length-mismatch
`Exception` unless the supplied list has exactly as many entries as there are
overrideable parameters, else assign positionally. -/
def overrideList (ps : List Param) (vs : List (Option ℚ)) : Except Err (List Param) :=
  if vs.length ≠ countOv ps then .error (.lengthMismatch (countOv ps) vs.length)
  else .ok (assignVals ps vs)

/-- One step of `scale_vars`: if the parameter has `units == 'length'` and
`scale_value is None`, multiply its value by the scale factor. -/
def scaleParam (c : ℚ) (p : Param) : Param :=
  if p.units = .length ∧ p.scale_value = none then { p with value := p.value.map (· * c) } else p

/-- `BaseAirfoilParams` after `__init__` has assigned its attributes: the 15 shape
parameters plus `dx`, `dy` (in `vars(self)` declaration order) and the
`non_dim_by_chord` flag. -/
structure BaseAirfoilParams where
  c : Param
  alf : Param
  R_le : Param
  L_le : Param
  r_le : Param
  phi_le : Param
  psi1_le : Param
  psi2_le : Param
  L1_te : Param
  L2_te : Param
  theta1_te : Param
  theta2_te : Param
  t_te : Param
  r_te : Param
  phi_te : Param
  dx : Param
  dy : Param
  non_dim_by_chord : Bool
deriving DecidableEq

/-- The `vars(self)` iteration order of the `Param` attributes of
`BaseAirfoilParams` (declaration order of `__init__`). -/
def baseList (b : BaseAirfoilParams) : List Param :=
  [b.c, b.alf, b.R_le, b.L_le, b.r_le, b.phi_le, b.psi1_le, b.psi2_le,
   b.L1_te, b.L2_te, b.theta1_te, b.theta2_te, b.t_te, b.r_te, b.phi_te, b.dx, b.dy]

/-- Rebuild a `BaseAirfoilParams` from a positional parameter list (inverse of
`baseList`; entries beyond the supplied list keep their old value). -/
def baseSet (b : BaseAirfoilParams) (l : List Param) : BaseAirfoilParams :=
  { b with
    c := l.getD 0 b.c, alf := l.getD 1 b.alf, R_le := l.getD 2 b.R_le,
    L_le := l.getD 3 b.L_le, r_le := l.getD 4 b.r_le, phi_le := l.getD 5 b.phi_le,
    psi1_le := l.getD 6 b.psi1_le, psi2_le := l.getD 7 b.psi2_le,
    L1_te := l.getD 8 b.L1_te, L2_te := l.getD 9 b.L2_te,
    theta1_te := l.getD 10 b.theta1_te, theta2_te := l.getD 11 b.theta2_te,
    t_te := l.getD 12 b.t_te, r_te := l.getD 13 b.r_te, phi_te := l.getD 14 b.phi_te,
    dx := l.getD 15 b.dx, dy := l.getD 16 b.dy }

/-- The `scale_vars` loop over all parameters in declaration order.  The loop
re-reads `self.c.value` (list position 0, the first `vars(self)` entry) at every
iteration, so the chord itself — were it ever an eligible length parameter — would
be scaled by its own old value first and every later parameter by the updated
chord; the remaining parameters are each read and written exactly once. -/
def scaleVarsSeq (l : List Param) : List Param :=
  match l with
  | [] => []
  | cP :: rest =>
    let cP2 := scaleParam (val0 cP.value) cP
    cP2 :: rest.map (scaleParam (val0 cP2.value))

/-- `BaseAirfoilParams.scale_vars`: only acts when `non_dim_by_chord` is set; scales
each length parameter whose `scale_value is None` by the chord value. -/
def baseScaleVars (b : BaseAirfoilParams) : BaseAirfoilParams :=
  if b.non_dim_by_chord then baseSet b (scaleVarsSeq (baseList b)) else b

/-- Range check `lo <= value <= hi` of the constructor; an infinite value (`none`)
fails the upper comparison, as the float comparison does. -/
def inRange (v : Option ℚ) (lo hi : ℚ) : Bool :=
  match v with
  | none => false
  | some q => lo ≤ q ∧ q ≤ hi

/-- `BaseAirfoilParams.__init__` (lines 94–129): assign attributes, validating
`phi_le ∈ [-π, π]`, `psi1_le ∈ [-π/2, π/2]`, `psi2_le ∈ [-π/2, π/2]` in that order
(`ValueError` reporting name, legal range and supplied value), then store the
overrideable count and run `scale_vars`.  `piv` is the abstract rational standing for
`np.pi`. -/
def mkBaseAirfoilParams (piv : ℚ)
    (c alf R_le L_le r_le phi_le psi1_le psi2_le L1_te L2_te theta1_te theta2_te
     t_te r_te phi_te dx dy : Param) (non_dim_by_chord : Bool) :
    Except Err BaseAirfoilParams :=
  if ¬ (inRange phi_le.value (-piv) piv = true) then
    .error (.badValue "phi_le" (-piv) piv phi_le.value)
  else if ¬ (inRange psi1_le.value (-(piv / 2)) (piv / 2) = true) then
    .error (.badValue "psi1_le" (-(piv / 2)) (piv / 2) psi1_le.value)
  else if ¬ (inRange psi2_le.value (-(piv / 2)) (piv / 2) = true) then
    .error (.badValue "psi2_le" (-(piv / 2)) (piv / 2) psi2_le.value)
  else
    .ok (baseScaleVars
      { c := c, alf := alf, R_le := R_le, L_le := L_le, r_le := r_le, phi_le := phi_le,
        psi1_le := psi1_le, psi2_le := psi2_le, L1_te := L1_te, L2_te := L2_te,
        theta1_te := theta1_te, theta2_te := theta2_te, t_te := t_te, r_te := r_te,
        phi_te := phi_te, dx := dx, dy := dy, non_dim_by_chord := non_dim_by_chord })

/-- `BaseAirfoilParams.override` (lines 160–181): positional assignment of the
overrideable parameters followed by `scale_vars`. -/
def baseOverride (b : BaseAirfoilParams) (vs : List (Option ℚ)) :
    Except Err BaseAirfoilParams :=
  match overrideList (baseList b) vs with
  | .error e => .error e
  | .ok l => .ok (baseScaleVars (baseSet b l))

/-- Specification-side reading of the construction contract of claim C8: accept iff
the tilt angle lies in `[-π, π]` and both curvature-control angles lie in
`[-π/2, π/2]`; on the first violation fail with the offending parameter name, its
legal range and the supplied value. -/
def mkBaseSpec (piv : ℚ)
    (c alf R_le L_le r_le phi_le psi1_le psi2_le L1_te L2_te theta1_te theta2_te
     t_te r_te phi_te dx dy : Param) (non_dim_by_chord : Bool) :
    Except Err BaseAirfoilParams :=
  if inRange phi_le.value (-piv) piv = false then
    .error (.badValue "phi_le" (-piv) piv phi_le.value)
  else if inRange psi1_le.value (-(piv / 2)) (piv / 2) = false then
    .error (.badValue "psi1_le" (-(piv / 2)) (piv / 2) psi1_le.value)
  else if inRange psi2_le.value (-(piv / 2)) (piv / 2) = false then
    .error (.badValue "psi2_le" (-(piv / 2)) (piv / 2) psi2_le.value)
  else
    .ok (baseScaleVars
      { c := c, alf := alf, R_le := R_le, L_le := L_le, r_le := r_le, phi_le := phi_le,
        psi1_le := psi1_le, psi2_le := psi2_le, L1_te := L1_te, L2_te := L2_te,
        theta1_te := theta1_te, theta2_te := theta2_te, t_te := t_te, r_te := r_te,
        phi_te := phi_te, dx := dx, dy := dy, non_dim_by_chord := non_dim_by_chord })

/-- Modelled from the spec: class `AnchorPoint` of `pyairpar/core/anchor_point.py`
(file absent from `src/`).  Spec section 3:
`{name, previous_anchor_point: name, position (x,y), L, R, r, phi, psi1, psi2}` —
all but the two names are `Param`s; the constructor also receives a
`length_scale_dimension` (the chord value, or unset).  Parameter declaration order,
confirmed by the flat vector of `airfoil.main()`: x, y, L, R, r, phi, psi1, psi2. -/
structure AnchorPoint where
  name : String
  previous_anchor_point : String
  x : Param
  y : Param
  L : Param
  R : Param
  r : Param
  phi : Param
  psi1 : Param
  psi2 : Param
  length_scale_dimension : Option ℚ := none
deriving DecidableEq

/-- Declaration-ordered `Param` list of an `AnchorPoint`. -/
def apList (a : AnchorPoint) : List Param :=
  [a.x, a.y, a.L, a.R, a.r, a.phi, a.psi1, a.psi2]

/-- Rebuild an `AnchorPoint` from a positional parameter list. -/
def apSet (a : AnchorPoint) (l : List Param) : AnchorPoint :=
  { a with
    x := l.getD 0 a.x, y := l.getD 1 a.y, L := l.getD 2 a.L, R := l.getD 3 a.R,
    r := l.getD 4 a.r, phi := l.getD 5 a.phi, psi1 := l.getD 6 a.psi1,
    psi2 := l.getD 7 a.psi2 }

/-- Modelled from the spec: `AnchorPoint.scale_vars` (sections 3 and 4.1) — when a
length-scale dimension is set, each `units == 'length'` parameter whose
`scale_value is None` is multiplied by it (mirror of `BaseAirfoilParams.scale_vars`,
whose docstring this file quotes: scaling only occurs if the object has a length
scale dimension). -/
def apScaleVars (a : AnchorPoint) : AnchorPoint :=
  match a.length_scale_dimension with
  | none => a
  | some d => apSet a ((apList a).map (scaleParam d))

/-- Modelled from the spec: `AnchorPoint.override` — the shared override contract of
section 4.1 (length check, positional assignment, re-apply scaling). -/
def apOverride (a : AnchorPoint) (vs : List (Option ℚ)) : Except Err AnchorPoint :=
  match overrideList (apList a) vs with
  | .error e => .error e
  | .ok l => .ok (apScaleVars (apSet a l))

/-- Modelled from the spec: class `FreePoint` of `pyairpar/core/free_point.py`
(file absent from `src/`).  Spec section 3:
`{previous_anchor_point: name, position (x,y)}` plus a length-scale dimension. -/
structure FreePoint where
  previous_anchor_point : String
  x : Param
  y : Param
  length_scale_dimension : Option ℚ := none
deriving DecidableEq

/-- Declaration-ordered `Param` list of a `FreePoint`. -/
def fpList (f : FreePoint) : List Param := [f.x, f.y]

/-- Rebuild a `FreePoint` from a positional parameter list. -/
def fpSet (f : FreePoint) (l : List Param) : FreePoint :=
  { f with x := l.getD 0 f.x, y := l.getD 1 f.y }

/-- Modelled from the spec: `FreePoint.scale_vars` (mirror of the anchor-point
rule). -/
def fpScaleVars (f : FreePoint) : FreePoint :=
  match f.length_scale_dimension with
  | none => f
  | some d => fpSet f ((fpList f).map (scaleParam d))

/-- Modelled from the spec: `FreePoint.override` — the shared override contract of
section 4.1. -/
def fpOverride (f : FreePoint) (vs : List (Option ℚ)) : Except Err FreePoint :=
  match overrideList (fpList f) vs with
  | .error e => .error e
  | .ok l => .ok (fpScaleVars (fpSet f l))

/-- Python slice `l[s:e]`. -/
def sliceL {α : Type} (l : List α) (s e : ℕ) : List α := (l.drop s).take (e - s)

/-- The anchor-point leg of the constructor override loop (`Airfoil.__init__`
lines 63–71): for each anchor point in tuple order, set its
`length_scale_dimension` to the (current) chord when `non_dim_by_chord`, slice the
next `n_overrideable_parameters` values and call its `override`.  The running start
index is threaded through. -/
def overrideAnchors (cNew : Option ℚ) (nonDim : Bool) :
    List AnchorPoint → ℕ → List (Option ℚ) → Except Err (List AnchorPoint × ℕ)
  | [], s, _ => .ok ([], s)
  | a :: rest, s, vals =>
    let a2 := if nonDim then { a with length_scale_dimension := cNew } else a
    let n := countOv (apList a2)
    match apOverride a2 (sliceL vals s (s + n)) with
    | .error e => .error e
    | .ok a3 =>
      match overrideAnchors cNew nonDim rest (s + n) vals with
      | .error e => .error e
      | .ok (as3, e3) => .ok (a3 :: as3, e3)

/-- The free-point leg of the constructor override loop (`Airfoil.__init__`
lines 75–83). -/
def overrideFrees (cNew : Option ℚ) (nonDim : Bool) :
    List FreePoint → ℕ → List (Option ℚ) → Except Err (List FreePoint × ℕ)
  | [], s, _ => .ok ([], s)
  | f :: rest, s, vals =>
    let f2 := if nonDim then { f with length_scale_dimension := cNew } else f
    let n := countOv (fpList f2)
    match fpOverride f2 (sliceL vals s (s + n)) with
    | .error e => .error e
    | .ok f3 =>
      match overrideFrees cNew nonDim rest (s + n) vals with
      | .error e => .error e
      | .ok (fs3, e3) => .ok (f3 :: fs3, e3)

/-- The full parameter-override pipeline of `Airfoil.__init__` (lines 30–83): base
descriptor first (slice `[0, n_base)`), then each anchor point in tuple order, then
each free point in tuple order; trailing values after the last free point are never
examined. -/
def airfoilOverrideParams (b : BaseAirfoilParams) (aps : List AnchorPoint)
    (fps : List FreePoint) (vals : List (Option ℚ)) :
    Except Err (BaseAirfoilParams × List AnchorPoint × List FreePoint) :=
  let nb := countOv (baseList b)
  match baseOverride b (sliceL vals 0 nb) with
  | .error e => .error e
  | .ok b2 =>
    match overrideAnchors b2.c.value b2.non_dim_by_chord aps nb vals with
    | .error e => .error e
    | .ok (as2, s2) =>
      match overrideFrees b2.c.value b2.non_dim_by_chord fps s2 vals with
      | .error e => .error e
      | .ok (fs2, _) => .ok (b2, as2, fs2)

/-- `Airfoil.extract_parameters` (lines 217–239): the flattened parameter vector —
overrideable values of the base descriptor, then of each anchor point in tuple
order, then of each free point in tuple order. -/
def extractParameters (b : BaseAirfoilParams) (aps : List AnchorPoint)
    (fps : List FreePoint) : List (Option ℚ) :=
  flattenVals (baseList b) ++
    (aps.map (fun a => flattenVals (apList a))).flatten ++
    (fps.map (fun f => flattenVals (fpList f))).flatten

/-- Total number of active-and-unlinked parameters across descriptor, anchor points
and free points — the length `extract_parameters` produces. -/
def totalCount (b : BaseAirfoilParams) (aps : List AnchorPoint)
    (fps : List FreePoint) : ℕ :=
  countOv (baseList b) + ((aps.map (fun a => countOv (apList a))).sum +
    (fps.map (fun f => countOv (fpList f))).sum)

/-- Abstraction of the real-valued primitives used by the geometry: `np.pi`,
`np.cos`, `np.sin`, `np.tan`, and `x ↦ x ** (3/2)` (named `pow32`).  These are not
rational functions; the geometric model is parametrised by this record. -/
structure RealFuns where
  pi : ℚ
  cos : ℚ → ℚ
  sin : ℚ → ℚ
  tan : ℚ → ℚ
  pow32 : ℚ → ℚ

/-- A 2-D point. -/
abbrev Point : Type := ℚ × ℚ

/-- Python dict assignment `d[k] = v` on an association list (replace the existing
binding in place, else append). -/
def aupd {α : Type} (l : List (String × α)) (k : String) (v : α) : List (String × α) :=
  match l with
  | [] => [(k, v)]
  | kv :: rest => if kv.1 = k then (k, v) :: rest else kv :: aupd rest k v

/-- Python dict lookup `d[k]` on an association list (first binding). -/
def alook {α : Type} (l : List (String × α)) (k : String) : Option α :=
  match l with
  | [] => none
  | kv :: rest => if kv.1 = k then some kv.2 else alook rest k

/-- Python `list.index` (index of the first occurrence; Python raises when the
element is absent, the model then returns the length, a branch never reached by the
embedded call sites). -/
def idxOf (l : List String) (k : String) : ℕ :=
  match l with
  | [] => 0
  | a :: rest => if a = k then 0 else idxOf rest k + 1

/-- Anchor names fixed by the constructor. -/
def keyTE1 : String := "te_1"

/-- The leading-edge anchor name. -/
def keyLE : String := "le"

/-- The second trailing-edge anchor name. -/
def keyTE2 : String := "te_2"

/-- The mutable geometric state owned by an `Airfoil`: the ordered anchor chain,
the per-name point dictionaries, the segment-order table `N`, the free-point lists
per segment, the assembled control polygon, the anchor-point skeleton, the sampled
outline and the dirty flag.  (The parallel curvature output of
`generate_airfoil_coordinates` mirrors `coords` with the same dedup rule and is not
re-modelled.) -/
structure AirState where
  order : List String
  anchor_points : List (String × Point)
  N : List (String × ℕ)
  g1_minus : List (String × Point)
  g1_plus : List (String × Point)
  g2_minus : List (String × Point)
  g2_plus : List (String × Point)
  free_points : List (String × List Point)
  control_points : List Point
  anchor_point_array : List Point
  coords : List Point
  needs_update : Bool
deriving DecidableEq

/-- `AnchorPoint.xy` (spec-modelled property: the position values as a point). -/
def apXY (a : AnchorPoint) : Point := (val0 a.x.value, val0 a.y.value)

/-- `FreePoint.xy` (spec-modelled property). -/
def fpXY (f : FreePoint) : Point := (val0 f.x.value, val0 f.y.value)

/-- The `anchor_points` dictionary built at `Airfoil.__init__` lines 85–92. -/
def initAnchorPts (rf : RealFuns) (b : BaseAirfoilParams) : List (String × Point) :=
  let c := val0 b.c.value
  let rte := val0 b.r_te.value
  let tte := val0 b.t_te.value
  let pte := val0 b.phi_te.value
  [(keyTE1, (c * 1 + rte * tte * rf.cos (rf.pi / 2 + pte),
             c * 0 + rte * tte * rf.sin (rf.pi / 2 + pte))),
   (keyLE, (0, 0)),
   (keyTE2, (c * 1 - (1 - rte) * tte * rf.cos (rf.pi / 2 + pte),
             c * 0 - (1 - rte) * tte * rf.sin (rf.pi / 2 + pte)))]

/-- `init_g1_points`, minus-side dictionary (lines 111–119). -/
def initG1Minus (rf : RealFuns) (b : BaseAirfoilParams)
    (apts : List (String × Point)) : List (String × Point) :=
  let te2p := (alook apts keyTE2).getD (0, 0)
  let lep := (alook apts keyLE).getD (0, 0)
  [(keyTE2, (te2p.1 + val0 b.L2_te.value * (-rf.cos (val0 b.theta2_te.value)),
             te2p.2 + val0 b.L2_te.value * (-rf.sin (val0 b.theta2_te.value)))),
   (keyLE, (lep.1 + val0 b.r_le.value * val0 b.L_le.value *
              rf.cos (rf.pi / 2 + val0 b.phi_le.value),
            lep.2 + val0 b.r_le.value * val0 b.L_le.value *
              rf.sin (rf.pi / 2 + val0 b.phi_le.value)))]

/-- `init_g1_points`, plus-side dictionary (lines 121–129). -/
def initG1Plus (rf : RealFuns) (b : BaseAirfoilParams)
    (apts : List (String × Point)) : List (String × Point) :=
  let te1p := (alook apts keyTE1).getD (0, 0)
  let lep := (alook apts keyLE).getD (0, 0)
  [(keyTE1, (te1p.1 + val0 b.L1_te.value * (-rf.cos (val0 b.theta1_te.value)),
             te1p.2 + val0 b.L1_te.value * rf.sin (val0 b.theta1_te.value))),
   (keyLE, (lep.1 - (1 - val0 b.r_le.value) * val0 b.L_le.value *
              rf.cos (rf.pi / 2 + val0 b.phi_le.value),
            lep.2 - (1 - val0 b.r_le.value) * val0 b.L_le.value *
              rf.sin (rf.pi / 2 + val0 b.phi_le.value)))]

/-- `Airfoil.set_curvature_le` (lines 163–184): if `R_le` is infinite the leading
edge's G2 support points are its G1 support points; otherwise each is solved from
the closed-form curvature expression, with `n1` the order of the segment ending at
the leading edge, `n2` the order of the segment starting there, and the fixed angles
`theta1 = psi1_le`, `theta2 = -psi2_le` (no sign branch on `R_le`). -/
def setCurvatureLe (rf : RealFuns) (b : BaseAirfoilParams) (order : List String)
    (N : List (String × ℕ)) (g1m g1p apts : List (String × Point)) : Point × Point :=
  match b.R_le.value with
  | none => ((alook g1m keyLE).getD (0, 0), (alook g1p keyLE).getD (0, 0))
  | some R =>
    let n1 : ℕ := (alook N (order.getD (idxOf order keyLE - 1) "")).getD 0
    let n2 : ℕ := (alook N keyLE).getD 0
    let th1 := val0 b.psi1_le.value
    let th2 := -val0 b.psi2_le.value
    let p0 := (alook apts keyLE).getD (0, 0)
    let pm := (alook g1m keyLE).getD (0, 0)
    let gmx := pm.1 - 1 / R * rf.pow32 ((p0.1 - pm.1) ^ 2 + (p0.2 - pm.2) ^ 2) /
      (1 - 1 / (n1 : ℚ)) / ((pm.1 - p0.1) * rf.tan th1 + p0.2 - pm.2)
    let pp := (alook g1p keyLE).getD (0, 0)
    let gpx := pp.1 - 1 / R * rf.pow32 ((pp.1 - p0.1) ^ 2 + (pp.2 - p0.2) ^ 2) /
      (1 - 1 / (n2 : ℚ)) / ((p0.1 - pp.1) * rf.tan th2 + pp.2 - p0.2)
    ((gmx, rf.tan th1 * (gmx - pm.1) + pm.2),
     (gpx, rf.tan th2 * (gpx - pp.1) + pp.2))

/-- `Airfoil.set_slope` (lines 146–161): G1 support points of an inserted anchor,
with the sign convention flipped according to the side of the leading edge. -/
def setSlope (rf : RealFuns) (ap : AnchorPoint) (st : AirState) : AirState :=
  let phi := val0 ap.phi.value
  let r := val0 ap.r.value
  let L := val0 ap.L.value
  let axy := (alook st.anchor_points ap.name).getD (0, 0)
  if idxOf st.order ap.name < idxOf st.order keyLE then
    { st with
      g1_minus := aupd st.g1_minus ap.name
        (axy.1 + r * L * rf.cos phi, axy.2 + r * L * rf.sin phi),
      g1_plus := aupd st.g1_plus ap.name
        (axy.1 - (1 - r) * L * rf.cos phi, axy.2 - (1 - r) * L * rf.sin phi) }
  else
    { st with
      g1_minus := aupd st.g1_minus ap.name
        (axy.1 - r * L * rf.cos phi, axy.2 - r * L * rf.sin phi),
      g1_plus := aupd st.g1_plus ap.name
        (axy.1 + (1 - r) * L * rf.cos phi, axy.2 + (1 - r) * L * rf.sin phi) }

/-- `Airfoil.set_curvature` (lines 186–215): if the anchor's curvature radius is
infinite, its G2 support points are set equal to its G1 support points; otherwise
both are solved from the closed-form expression, with the angle pair
`(psi1, -psi2)` when `R > 0` and `(π - psi1, π + psi2)` otherwise.  (The code
indexes `order[index(name) - 1]`; an inserted anchor never sits at index 0.) -/
def setCurvature (rf : RealFuns) (ap : AnchorPoint) (st : AirState) : AirState :=
  match ap.R.value with
  | none =>
    { st with
      g2_minus := aupd st.g2_minus ap.name ((alook st.g1_minus ap.name).getD (0, 0)),
      g2_plus := aupd st.g2_plus ap.name ((alook st.g1_plus ap.name).getD (0, 0)) }
  | some R =>
    let n1 : ℕ := (alook st.N (st.order.getD (idxOf st.order ap.name - 1) "")).getD 0
    let n2 : ℕ := (alook st.N ap.name).getD 0
    let th1 := if 0 < R then val0 ap.psi1.value else rf.pi - val0 ap.psi1.value
    let th2 := if 0 < R then -val0 ap.psi2.value else rf.pi + val0 ap.psi2.value
    let p0 := apXY ap
    let pm := (alook st.g1_minus ap.name).getD (0, 0)
    let gmx := pm.1 - 1 / R * rf.pow32 ((p0.1 - pm.1) ^ 2 + (p0.2 - pm.2) ^ 2) /
      (1 - 1 / (n1 : ℚ)) / ((pm.1 - p0.1) * rf.tan th1 + p0.2 - pm.2)
    let pp := (alook st.g1_plus ap.name).getD (0, 0)
    let gpx := pp.1 - 1 / R * rf.pow32 ((pp.1 - p0.1) ^ 2 + (pp.2 - p0.2) ^ 2) /
      (1 - 1 / (n2 : ℚ)) / ((p0.1 - pp.1) * rf.tan th2 + pp.2 - p0.2)
    { st with
      g2_minus := aupd st.g2_minus ap.name (gmx, rf.tan th1 * (gmx - pm.1) + pm.2),
      g2_plus := aupd st.g2_plus ap.name (gpx, rf.tan th2 * (gpx - pp.1) + pp.2) }

/-- The chain after `anchor_point_order.insert(index(previous) + 1, name)`. -/
def insertedOrder (ap : AnchorPoint) (st : AirState) : List String :=
  List.insertIdx (idxOf st.order ap.previous_anchor_point + 1) ap.name st.order

/-- Python `order[-2]`: the penultimate chain entry. -/
def penultName (l : List String) : String := l.getD (l.length - 2) ""

/-- `Airfoil.add_anchor_point` (lines 316–333): insert the name directly after its
predecessor, store the position, compute G1 support points, update the segment-order
table (`N['le'] = 5` and `N[order[-2]] = 4` when the new anchor lands after the
leading edge, else `N[name] = 5`), compute G2 support points, mark dirty. -/
def addAnchorPoint (rf : RealFuns) (ap : AnchorPoint) (st : AirState) : AirState :=
  let order2 := insertedOrder ap st
  let st2 := { st with order := order2,
                       anchor_points := aupd st.anchor_points ap.name (apXY ap) }
  let st3 := setSlope rf ap st2
  let st4 :=
    if idxOf st3.order keyLE < idxOf st3.order ap.name then
      { st3 with N := aupd (aupd st3.N keyLE 5) (penultName st3.order) 4 }
    else
      { st3 with N := aupd st3.N ap.name 5 }
  let st5 := setCurvature rf ap st4
  { st5 with needs_update := true }

/-- In-place `+= 1` on a table entry (`self.N[key] += 1`; the code raises `KeyError`
on a missing key, a branch the embedded call sites never reach). -/
def nIncr (l : List (String × ℕ)) (k : String) : List (String × ℕ) :=
  l.map (fun kv => if kv.1 = k then (kv.1, kv.2 + 1) else kv)

/-- `Airfoil.add_free_point` (lines 298–314): append the position to the target
segment's free-point list, increment that segment's Bezier order, mark dirty. -/
def addFreePoint (fp : FreePoint) (st : AirState) : AirState :=
  let old := (alook st.free_points fp.previous_anchor_point).getD []
  { st with
    free_points := aupd st.free_points fp.previous_anchor_point (old ++ [fpXY fp]),
    N := nIncr st.N fp.previous_anchor_point,
    needs_update := true }

/-- `Airfoil.add_anchor_points` (lines 335–339): add every anchor of the tuple not
already present in the chain. -/
def addAnchorPoints (rf : RealFuns) (aps : List AnchorPoint) (st : AirState) :
    AirState :=
  let st2 := aps.foldl (fun s a => if a.name ∈ s.order then s else addAnchorPoint rf a s) st
  { st2 with needs_update := true }

/-- `Airfoil.add_free_points` (lines 341–344). -/
def addFreePoints (fps : List FreePoint) (st : AirState) : AirState :=
  let st2 := fps.foldl (fun s f => addFreePoint f s) st
  { st2 with needs_update := true }

/-- Stored anchor position, default `(0,0)` on the key-error branch the embedded
call sites never reach. -/
def aptv (st : AirState) (a : String) : Point := (alook st.anchor_points a).getD (0, 0)

/-- Stored minus-side G1 support point (same default convention). -/
def g1mv (st : AirState) (a : String) : Point := (alook st.g1_minus a).getD (0, 0)

/-- Stored plus-side G1 support point (same default convention). -/
def g1pv (st : AirState) (a : String) : Point := (alook st.g1_plus a).getD (0, 0)

/-- Free points attached to the segment that starts at anchor `a`. -/
def freeOf (st : AirState) (a : String) : List Point :=
  (alook st.free_points a).getD []

/-- Zero-or-one point, from dictionary membership. -/
def optP (o : Option Point) : List Point :=
  match o with
  | none => []
  | some p => [p]

/-- The control points emitted for one anchor by `order_control_points`
(lines 272–296): the first anchor contributes `[anchor, g1_plus]`; every later
anchor contributes `g2_minus` (if present), `g1_minus`, the anchor, `g1_plus` (if
present), `g2_plus` (if present); in both cases followed by the free points of the
anchor's outgoing segment in insertion order. -/
def emitBlock (st : AirState) (first : Bool) (a : String) : List Point :=
  (if first then [aptv st a, g1pv st a]
   else optP (alook st.g2_minus a) ++ [g1mv st a, aptv st a] ++
     optP (alook st.g1_plus a) ++ optP (alook st.g2_plus a)) ++ freeOf st a

/-- `Airfoil.order_control_points`: the full control polygon, walking
`anchor_point_order`. -/
def orderControlPoints (st : AirState) : List Point :=
  match st.order with
  | [] => []
  | a :: rest => emitBlock st true a ++ (rest.map (fun b => emitBlock st false b)).flatten

/-- `Airfoil.translate` (lines 369–373). -/
def translateA (dxq dyq : ℚ) (st : AirState) : AirState :=
  { st with control_points := st.control_points.map (fun p => (p.1 + dxq, p.2 + dyq)),
            needs_update := true }

/-- `Airfoil.rotate` (lines 375–381): rotate the control polygon and the
anchor-point skeleton, mark dirty. -/
def rotateA (rf : RealFuns) (angle : ℚ) (st : AirState) : AirState :=
  let cs := rf.cos angle
  let sn := rf.sin angle
  { st with
    control_points := st.control_points.map (fun p => (cs * p.1 - sn * p.2, sn * p.1 + cs * p.2)),
    anchor_point_array := st.anchor_point_array.map (fun p => (cs * p.1 - sn * p.2, sn * p.1 + cs * p.2)),
    needs_update := true }

/-- Position on a Bezier curve through the control points `P` at parameter `t`, the
Bernstein sum of the module-level `bezier` function with `n = len(P)` and
coefficients `nCr(n-1, i)`. -/
def bezPoint (P : List Point) (t : ℚ) : Point :=
  (∑ i ∈ Finset.range P.length,
    (P.getD i (0, 0)).1 * ((P.length - 1).choose i : ℚ) * t ^ i * (1 - t) ^ (P.length - 1 - i),
   ∑ i ∈ Finset.range P.length,
    (P.getD i (0, 0)).2 * ((P.length - 1).choose i : ℚ) * t ^ i * (1 - t) ^ (P.length - 1 - i))

/-- `np.linspace(0, 1, nt)`. -/
def linspace01 (nt : ℕ) : List ℚ :=
  (List.range nt).map (fun (j : ℕ) => (j : ℚ) / ((nt : ℚ) - 1))

/-- The sampled positions of the `bezier` function: `C['x'], C['y']` at the `nt`
evenly spaced parameter values. -/
def bezierPos (P : List Point) (nt : ℕ) : List Point :=
  (linspace01 nt).map (bezPoint P)

/-- The control-point slices per segment used by `generate_airfoil_coordinates`
(lines 386–393): segment `idx` takes `N[order[idx]] + 1` points, with consecutive
slices overlapping by one shared endpoint. -/
def segSlices (st : AirState) : List String → ℕ → List (List Point)
  | [], _ => []
  | [_], _ => []
  | a :: b :: rest, s =>
    let len := (alook st.N a).getD 0 + 1
    sliceL st.control_points s (s + len) :: segSlices st (b :: rest) (s + len - 1)

/-- `Airfoil.generate_airfoil_coordinates` (lines 383–405), position part: sample
each segment, concatenate, dropping the first sample of every segment after the
first (the shared boundary sample). -/
def generateCoords (nt : ℕ) (st : AirState) : AirState :=
  let cs := (segSlices st st.order 0).map (fun P => bezierPos P nt)
  let coords :=
    match cs with
    | [] => []
    | c0 :: rest => c0 ++ (rest.map (fun c => c.drop 1)).flatten
  { st with coords := coords }

/-- `Airfoil.update` (lines 354–362): materialise pending anchor and free points,
re-extract parameters (no geometric effect), reassemble the control polygon and the
anchor skeleton, rotate by the negative angle of attack, sample the outline, clear
the dirty flag. -/
def updateA (rf : RealFuns) (nt : ℕ) (b : BaseAirfoilParams) (aps : List AnchorPoint)
    (fps : List FreePoint) (st : AirState) : AirState :=
  let st1 := addAnchorPoints rf aps st
  let st2 := addFreePoints fps st1
  let st3 := { st2 with control_points := orderControlPoints st2 }
  let st4 := { st3 with anchor_point_array := st3.order.map (aptv st3) }
  let st5 := rotateA rf (-val0 b.alf.value) st4
  let st6 := generateCoords nt st5
  { st6 with needs_update := false }

/-- `Airfoil.__init__` geometric part (lines 85–107): the initial three-anchor
chain, its G1/G2 support points, the initial segment-order table, the dirty flag,
then `update()`.  Run after any override of the parameter objects. -/
def initCoreState (rf : RealFuns) (b : BaseAirfoilParams) : AirState :=
  let apts := initAnchorPts rf b
  let g1m := initG1Minus rf b apts
  let g1p := initG1Plus rf b apts
  let ord := [keyTE1, keyLE, keyTE2]
  let n0 : List (String × ℕ) := [(keyTE1, 4), (keyLE, 4)]
  let g2 := setCurvatureLe rf b ord n0 g1m g1p apts
  { order := ord, anchor_points := apts, N := n0, g1_minus := g1m, g1_plus := g1p,
    g2_minus := [(keyLE, g2.1)], g2_plus := [(keyLE, g2.2)], free_points := [],
    control_points := [], anchor_point_array := [], coords := [],
    needs_update := true }

/-- Construction after the parameter objects are settled: initial state plus
`update()`. -/
def airfoilInit (rf : RealFuns) (nt : ℕ) (b : BaseAirfoilParams)
    (aps : List AnchorPoint) (fps : List FreePoint) : AirState :=
  updateA rf nt b aps fps (initCoreState rf b)

/-- The whole of `Airfoil.__init__`: optional override of the parameter objects
(which can fail), then geometric construction.  `Airfoil.override` re-runs this with
the stored arguments and the supplied vector. -/
def airfoilCtor (rf : RealFuns) (nt : ℕ) (b : BaseAirfoilParams)
    (aps : List AnchorPoint) (fps : List FreePoint)
    (ovr : Option (List (Option ℚ))) : Except Err AirState :=
  match ovr with
  | none => .ok (airfoilInit rf nt b aps fps)
  | some vals =>
    match airfoilOverrideParams b aps fps vals with
    | .error e => .error e
    | .ok baf => .ok (airfoilInit rf nt baf.1 baf.2.1 baf.2.2)

/-! ### Concrete configuration used by the evaluation theorems

A minimal descriptor: chord 2, all angles 0, the four edge lengths and the
leading-edge radius equal to 1 chord-relative unit (`units == 'length'`,
`scale_value` unset), blunt trailing-edge thickness 0, `non_dim_by_chord` on. -/

/-- Chord parameter, value 2. -/
def pC2 : Param := { value := some 2 }

/-- An active dimensionless parameter with value 0. -/
def pZ : Param := { value := some 0 }

/-- An active length parameter with value 1 and no `scale_value`. -/
def pLen1 : Param := { value := some 1, units := .length }

/-- An active dimensionless parameter with value 1/2. -/
def pHalf : Param := { value := some (1 / 2) }

/-- An inactive dimensionless parameter with value 0. -/
def pZi : Param := { value := some 0, active := false }

/-- An inactive length parameter with value 0. -/
def pLen0i : Param := { value := some 0, units := .length, active := false }

/-- An inactive dimensionless parameter with value 1/2 (`r_te` default style). -/
def pHalfI : Param := { value := some (1 / 2), active := false }

/-- The concrete descriptor AFTER construction: `scale_vars` has multiplied the five
length parameters by the chord 2. -/
def cfgB : BaseAirfoilParams :=
  { c := pC2, alf := pZ,
    R_le := { value := some 2, units := .length },
    L_le := { value := some 2, units := .length },
    r_le := pHalf, phi_le := pZi, psi1_le := pZ, psi2_le := pZ,
    L1_te := { value := some 2, units := .length },
    L2_te := { value := some 2, units := .length },
    theta1_te := pZ, theta2_te := pZ, t_te := pLen0i, r_te := pHalfI,
    phi_te := pZi, dx := pZi, dy := pZi, non_dim_by_chord := true }

/-- C2: the claim says a length parameter owned by a `non_dim_by_chord` descriptor
is multiplied by the chord-derived factor exactly once over the object's lifetime,
`scale_value` preventing a second multiplication.  The code contradicts its own
docstring ("Scaling only occurs ... if the Param has not yet been scaled"): the
guard is `scale_value is None`, and nothing ever records that scaling happened, so
the re-application of `scale_vars` inside `override` multiplies again.  Evaluated
here: constructing the concrete descriptor scales `L1_te` from 1 to 2 (chord 2);
overriding with the very values just flattened leaves `c = 2` but takes `L1_te` to
4 — a second multiplication. -/
theorem C2_scale_exactly_once_violated :
    mkBaseAirfoilParams (157 / 50) pC2 pZ pLen1 pLen1 pHalf pZi pZ pZ pLen1 pLen1
      pZ pZ pLen0i pHalfI pZi pZi pZi true = .ok cfgB ∧
    cfgB.L1_te.value = some 2 ∧
    (baseOverride cfgB (flattenVals (baseList cfgB))).map
      (fun b2 => b2.L1_te.value) = .ok (some 4) := by
  refine ⟨?_, ?_, ?_⟩
  · norm_num [mkBaseAirfoilParams, inRange, baseScaleVars, scaleVarsSeq, baseList,
      baseSet, scaleParam, val0, pC2, pZ, pLen1, pHalf, pZi, pLen0i, pHalfI, cfgB]
  · simp [cfgB]
  · norm_num [baseOverride, overrideList, flattenVals, countOv, overrideable,
      assignVals, baseScaleVars, scaleVarsSeq, baseList, baseSet, Except.map,
      scaleParam, val0, pC2, pZ, pLen1, pHalf, pZi, pLen0i, pHalfI, cfgB]

/-- C8: constructing a Shape Descriptor Set fails — with an error carrying the
offending parameter's name, its legal range and the supplied value — if and only if
the leading-edge tilt angle lies outside `[-π, π]` or either leading-edge
curvature-control angle lies outside `[-π/2, π/2]`; every assignment inside those
ranges is accepted (no other construction-time check exists).  Stated as: the
constructor equals the specification-side `mkBaseSpec` (first violation reported
with name, range, value), and its success flag is exactly the conjunction of the
three range tests.  `np.pi` is abstracted by the rational `piv`. -/
theorem C8_construction_validation (piv : ℚ)
    (c alf R_le L_le r_le phi_le psi1_le psi2_le L1_te L2_te theta1_te theta2_te
     t_te r_te phi_te dx dy : Param) (ndim : Bool) :
    mkBaseAirfoilParams piv c alf R_le L_le r_le phi_le psi1_le psi2_le L1_te L2_te
        theta1_te theta2_te t_te r_te phi_te dx dy ndim =
      mkBaseSpec piv c alf R_le L_le r_le phi_le psi1_le psi2_le L1_te L2_te
        theta1_te theta2_te t_te r_te phi_te dx dy ndim ∧
    eOk (mkBaseAirfoilParams piv c alf R_le L_le r_le phi_le psi1_le psi2_le L1_te
        L2_te theta1_te theta2_te t_te r_te phi_te dx dy ndim) =
      (inRange phi_le.value (-piv) piv &&
        (inRange psi1_le.value (-(piv / 2)) (piv / 2) &&
          inRange psi2_le.value (-(piv / 2)) (piv / 2))) := by
  cases h1 : inRange phi_le.value (-piv) piv <;>
    cases h2 : inRange psi1_le.value (-(piv / 2)) (piv / 2) <;>
      cases h3 : inRange psi2_le.value (-(piv / 2)) (piv / 2) <;>
        simp [mkBaseAirfoilParams, mkBaseSpec, eOk, h1, h2, h3]

theorem alook_aupd_self {α : Type} (l : List (String × α)) (k : String) (v : α) :
    alook (aupd l k v) k = some v := by
  induction l with
  | nil => simp [aupd, alook]
  | cons kv rest ih =>
    by_cases h : kv.1 = k
    · simp [aupd, alook, h]
    · simp [aupd, alook, h, ih]

theorem alook_aupd_ne {α : Type} (l : List (String × α)) (k k2 : String) (v : α)
    (h : k2 ≠ k) : alook (aupd l k v) k2 = alook l k2 := by
  have hne : ¬k = k2 := fun hc => h hc.symm
  induction l with
  | nil => simp [aupd, alook, hne]
  | cons kv rest ih =>
    by_cases h2 : kv.1 = k
    · simp only [aupd, alook, h2, if_pos rfl]
      rw [if_neg hne, if_neg (h2 ▸ hne)]
    · simp only [aupd, alook, if_neg h2]
      by_cases h3 : kv.1 = k2
      · simp [h3]
      · simp [h3, ih]

/-- Rational instantiation of the real-valued primitives used by the concrete
evaluation theorems.  Every point at which those theorems force an evaluation has an
exact rational image under the true functions, and the instance agrees with it
there: the only angles reaching `cos`/`sin` are `0` (values `1`, `0`) and
`pi / 2 + 0` (values `0`, `1`, with `pi` abstract and nonzero); the only angle
reaching `tan` is `0` (value `0`); `pow32` (that is, `x ** (3/2)`) is evaluated at
the squared distances `1` and `4` (values `1` and `8`). -/
def rfEx : RealFuns :=
  { pi := 157 / 50,
    cos := fun q => if q = 0 then 1 else 0,
    sin := fun q => if q = 0 then 0 else 1,
    tan := fun _ => 0,
    pow32 := fun q => if q = 1 then 1 else if q = 4 then 8 else 0 }

/-- C9 counterexample: the claim states `needs_update` is true immediately after
construction (and after `override`, which re-runs the constructor).  It is not: the
last statement of `__init__` is `self.update()`, whose final assignment clears the
flag, so a freshly constructed airfoil observes `needs_update = False`. -/
theorem C9_construction_ends_clean :
    (airfoilInit rfEx 2 cfgB [] []).needs_update = false := rfl

/-- C9 amended: the mutators `add_anchor_point`, `add_free_point`, `translate` and
`rotate` leave `needs_update = True`; construction and `override` finish by running
`update()`, so the flag is `False` immediately after they return; `update()` is the
only `Airfoil` method whose final assignment clears the flag. -/
theorem C9_dirty_flag_transitions (rf : RealFuns) (nt : ℕ) (b : BaseAirfoilParams)
    (aps : List AnchorPoint) (fps : List FreePoint) (ap : AnchorPoint)
    (fp : FreePoint) (dxq dyq ang : ℚ) (st : AirState) (vals : List (Option ℚ)) :
    (addAnchorPoint rf ap st).needs_update = true ∧
    (addFreePoint fp st).needs_update = true ∧
    (translateA dxq dyq st).needs_update = true ∧
    (rotateA rf ang st).needs_update = true ∧
    (updateA rf nt b aps fps st).needs_update = false ∧
    (airfoilInit rf nt b aps fps).needs_update = false ∧
    (match airfoilCtor rf nt b aps fps (some vals) with
     | .ok s => s.needs_update = false
     | .error _ => True) := by
  refine ⟨rfl, rfl, rfl, rfl, rfl, rfl, ?_⟩
  simp only [airfoilCtor]
  cases airfoilOverrideParams b aps fps vals with
  | error e => simp
  | ok baf => exact rfl

/-- C5: for every anchor point (including the leading edge), when the requested
curvature radius is infinite (`none`) the G2 support point on each side is set
equal to the corresponding G1 support point, with no curvature solve: both
`set_curvature` and `set_curvature_le` return along their infinite-radius branch,
which copies the stored G1 points verbatim. -/
theorem C5_infinite_radius_copies_g1 (rf : RealFuns) (ap : AnchorPoint)
    (st : AirState) (b : BaseAirfoilParams) (order : List String)
    (N : List (String × ℕ)) (g1m g1p apts : List (String × Point))
    (hap : ap.R.value = none) (hb : b.R_le.value = none) :
    alook (setCurvature rf ap st).g2_minus ap.name = some (g1mv st ap.name) ∧
    alook (setCurvature rf ap st).g2_plus ap.name = some (g1pv st ap.name) ∧
    setCurvatureLe rf b order N g1m g1p apts =
      ((alook g1m keyLE).getD (0, 0), (alook g1p keyLE).getD (0, 0)) := by
  refine ⟨?_, ?_, ?_⟩
  · simp [setCurvature, hap, g1mv, alook_aupd_self]
  · simp [setCurvature, hap, g1pv, alook_aupd_self]
  · simp [setCurvatureLe, hb]

/-- A concrete anchor point with infinite curvature radius. -/
def apInf : AnchorPoint :=
  { name := "mid", previous_anchor_point := keyTE1,
    x := { value := some (1 / 2) }, y := { value := some (1 / 4) },
    L := { value := some 1 }, R := { value := none }, r := pHalf,
    phi := pZ, psi1 := pZ, psi2 := pZ }

/-- The concrete descriptor with an infinite leading-edge radius. -/
def cfgBInf : BaseAirfoilParams :=
  { cfgB with R_le := { value := none, units := .length } }

/-- Witness for C5 at a concrete input. -/
theorem C5_witness :
    apInf.R.value = none ∧ cfgBInf.R_le.value = none ∧
    (alook (setCurvature rfEx apInf (initCoreState rfEx cfgB)).g2_minus apInf.name =
        some (g1mv (initCoreState rfEx cfgB) apInf.name) ∧
      alook (setCurvature rfEx apInf (initCoreState rfEx cfgB)).g2_plus apInf.name =
        some (g1pv (initCoreState rfEx cfgB) apInf.name) ∧
      setCurvatureLe rfEx cfgBInf [keyTE1, keyLE, keyTE2] [(keyTE1, 4), (keyLE, 4)]
          [] [] [] =
        ((alook ([] : List (String × Point)) keyLE).getD (0, 0),
         (alook ([] : List (String × Point)) keyLE).getD (0, 0))) :=
  ⟨rfl, rfl,
    C5_infinite_radius_copies_g1 rfEx apInf (initCoreState rfEx cfgB) cfgBInf
      [keyTE1, keyLE, keyTE2] [(keyTE1, 4), (keyLE, 4)] [] [] [] rfl rfl⟩

/-- Amended-claim angle on the minus (incoming) side: `psi1` when `R > 0`, else
`π - psi1` (the code reflects the support line rather than rotating it by π, so
`tan` changes sign). -/
def thMinus (rf : RealFuns) (psi1 R : ℚ) : ℚ := if 0 < R then psi1 else rf.pi - psi1

/-- Amended-claim angle on the plus (outgoing) side: `-psi2` when `R > 0`, else
`π + psi2`. -/
def thPlus (rf : RealFuns) (psi2 R : ℚ) : ℚ := if 0 < R then -psi2 else rf.pi + psi2

/-- The claimed G2 x-coordinate (claim C4, both sides):
`g1.x − (1/R)·dist(anchor, g1)³ / (1 − 1/n) / ((g1.x − anchor.x)·tanθ + anchor.y − g1.y)`.
This matches the code on the minus side only. -/
def g2SpecX (rf : RealFuns) (theta : ℚ) (anchor g1 : Point) (n : ℕ) (R : ℚ) : ℚ :=
  g1.1 - 1 / R * rf.pow32 ((anchor.1 - g1.1) ^ 2 + (anchor.2 - g1.2) ^ 2) /
    (1 - 1 / (n : ℚ)) / ((g1.1 - anchor.1) * rf.tan theta + anchor.2 - g1.2)

/-- The amended G2 x-coordinate on the plus side: same expression with the
denominator mirrored, `(anchor.x − g1.x)·tanθ + g1.y − anchor.y` (the negation of
the claimed denominator). -/
def g2SpecPlusX (rf : RealFuns) (theta : ℚ) (anchor g1 : Point) (n : ℕ) (R : ℚ) : ℚ :=
  g1.1 - 1 / R * rf.pow32 ((anchor.1 - g1.1) ^ 2 + (anchor.2 - g1.2) ^ 2) /
    (1 - 1 / (n : ℚ)) / ((anchor.1 - g1.1) * rf.tan theta + g1.2 - anchor.2)

/-- The claimed G2 y-coordinate: on the line through `g1` at angle `theta`. -/
def g2SpecY (rf : RealFuns) (theta : ℚ) (g1 : Point) (x : ℚ) : ℚ :=
  rf.tan theta * (x - g1.1) + g1.2

/-- C4 amended: for an anchor with finite requested radius `R`, the G2 point on
each side lies on the line through that side's G1 point at the fixed angle, and its
x-coordinate follows the closed form — but with two corrections to the claim.
(1) For `R < 0` the code uses `π − psi1` (minus side) and `π + psi2` (plus side),
a reflection of the support line, not the claimed rotation by π (which would leave
`tan θ` unchanged; the code's angles negate it).  (2) On the plus side the
denominator is mirrored: `(anchor.x − g1.x)·tanθ + g1.y − anchor.y`, the negation
of the claimed `(g1.x − anchor.x)·tanθ + anchor.y − g1.y`.  The minus side matches
the claim verbatim.  The leading-edge solve (`set_curvature_le`) uses the positive-
radius angles `psi1_le`/`−psi2_le` unconditionally. -/
theorem C4_g2_closed_form (rf : RealFuns) (ap : AnchorPoint) (st : AirState)
    (Rv : ℚ) (b : BaseAirfoilParams) (order : List String) (N2 : List (String × ℕ))
    (g1m g1p apts : List (String × Point)) (RLe : ℚ)
    (hR : ap.R.value = some Rv) (hRle : b.R_le.value = some RLe) :
    alook (setCurvature rf ap st).g2_minus ap.name =
      some (g2SpecX rf (thMinus rf (val0 ap.psi1.value) Rv) (apXY ap)
              (g1mv st ap.name)
              ((alook st.N (st.order.getD (idxOf st.order ap.name - 1) "")).getD 0) Rv,
            g2SpecY rf (thMinus rf (val0 ap.psi1.value) Rv) (g1mv st ap.name)
              (g2SpecX rf (thMinus rf (val0 ap.psi1.value) Rv) (apXY ap)
                (g1mv st ap.name)
                ((alook st.N (st.order.getD (idxOf st.order ap.name - 1) "")).getD 0)
                Rv)) ∧
    alook (setCurvature rf ap st).g2_plus ap.name =
      some (g2SpecPlusX rf (thPlus rf (val0 ap.psi2.value) Rv) (apXY ap)
              (g1pv st ap.name) ((alook st.N ap.name).getD 0) Rv,
            g2SpecY rf (thPlus rf (val0 ap.psi2.value) Rv) (g1pv st ap.name)
              (g2SpecPlusX rf (thPlus rf (val0 ap.psi2.value) Rv) (apXY ap)
                (g1pv st ap.name) ((alook st.N ap.name).getD 0) Rv)) ∧
    (setCurvatureLe rf b order N2 g1m g1p apts).1 =
      (g2SpecX rf (val0 b.psi1_le.value) ((alook apts keyLE).getD (0, 0))
         ((alook g1m keyLE).getD (0, 0))
         ((alook N2 (order.getD (idxOf order keyLE - 1) "")).getD 0) RLe,
       g2SpecY rf (val0 b.psi1_le.value) ((alook g1m keyLE).getD (0, 0))
         (g2SpecX rf (val0 b.psi1_le.value) ((alook apts keyLE).getD (0, 0))
           ((alook g1m keyLE).getD (0, 0))
           ((alook N2 (order.getD (idxOf order keyLE - 1) "")).getD 0) RLe)) ∧
    (setCurvatureLe rf b order N2 g1m g1p apts).2 =
      (g2SpecPlusX rf (-val0 b.psi2_le.value) ((alook apts keyLE).getD (0, 0))
         ((alook g1p keyLE).getD (0, 0)) ((alook N2 keyLE).getD 0) RLe,
       g2SpecY rf (-val0 b.psi2_le.value) ((alook g1p keyLE).getD (0, 0))
         (g2SpecPlusX rf (-val0 b.psi2_le.value) ((alook apts keyLE).getD (0, 0))
           ((alook g1p keyLE).getD (0, 0)) ((alook N2 keyLE).getD 0) RLe)) := by
  have hsq : ∀ a b c d : ℚ, (a - b) ^ 2 + (c - d) ^ 2 = (b - a) ^ 2 + (d - c) ^ 2 := by
    intro a b c d
    ring
  refine ⟨?_, ?_, ?_, ?_⟩
  · simp only [setCurvature, hR, alook_aupd_self, thMinus, g2SpecX, g2SpecY, g1mv,
      apXY]
  · simp only [setCurvature, hR, alook_aupd_self, thPlus, g2SpecPlusX, g2SpecY,
      g1pv, apXY]
    rw [hsq]
  · simp only [setCurvatureLe, hRle, g2SpecX, g2SpecY]
  · simp only [setCurvatureLe, hRle, g2SpecPlusX, g2SpecY]
    rw [hsq]

/-- Concrete anchor for the C4 evaluation: positioned at the origin, radius 1,
`psi2 = 1` (an abstract angle unit standing for π/4). -/
def apC : AnchorPoint :=
  { name := "a", previous_anchor_point := "p",
    x := pZ, y := pZ, L := { value := some 1 }, R := { value := some 1 },
    r := pHalf, phi := pZ, psi1 := pZ, psi2 := { value := some 1 } }

/-- Concrete state for the C4 evaluation: a two-anchor chain with G1 support points
`(0,1)` (minus) and `(1,0)` (plus) for anchor `a`, both adjoining orders 4. -/
def stC : AirState :=
  { order := ["p", "a"], anchor_points := [("a", (0, 0))], N := [("p", 4), ("a", 4)],
    g1_minus := [("a", (0, 1))], g1_plus := [("a", (1, 0))], g2_minus := [],
    g2_plus := [], free_points := [], control_points := [],
    anchor_point_array := [], coords := [], needs_update := true }

/-- Rational primitives for the C4 evaluation: `tan` maps the plus-side angle `-1`
(standing for `-π/4`) to `-1`, its exact value there; `pow32 1 = 1` is exact. -/
def rfC : RealFuns :=
  { pi := 157 / 50, cos := fun _ => 0, sin := fun _ => 0,
    tan := fun q => if q = -1 then -1 else 0,
    pow32 := fun q => if q = 1 then 1 else 0 }

/-- C4 counterexample: at the concrete input, the code places the plus-side G2
support point at x = −1/3, while the claimed closed form (same formula as the minus
side) yields x = 7/3: the plus-side denominator in the code is the negation of the
claimed one. -/
theorem C4_counterexample :
    (alook (setCurvature rfC apC stC).g2_plus "a").map Prod.fst = some (-(1 / 3)) ∧
    g2SpecX rfC (-(val0 apC.psi2.value)) (apXY apC) (g1pv stC "a")
      ((alook stC.N "a").getD 0) 1 = 7 / 3 ∧
    (-(1 / 3) : ℚ) ≠ (7 / 3 : ℚ) := by
  refine ⟨?_, ?_, by norm_num⟩
  · norm_num [setCurvature, apC, stC, rfC, alook, aupd, idxOf, val0, apXY, g1mv,
      g1pv, pZ, pHalf, keyLE]
  · norm_num [g2SpecX, apC, stC, rfC, alook, val0, apXY, g1pv, pZ, pHalf]

/-- Witness for the amended C4 theorem at a concrete input. -/
theorem C4_witness :
    apC.R.value = some 1 ∧ cfgB.R_le.value = some 2 ∧
    (alook (setCurvature rfC apC stC).g2_minus apC.name =
      some (g2SpecX rfC (thMinus rfC (val0 apC.psi1.value) 1) (apXY apC)
              (g1mv stC apC.name)
              ((alook stC.N (stC.order.getD (idxOf stC.order apC.name - 1) "")).getD 0) 1,
            g2SpecY rfC (thMinus rfC (val0 apC.psi1.value) 1) (g1mv stC apC.name)
              (g2SpecX rfC (thMinus rfC (val0 apC.psi1.value) 1) (apXY apC)
                (g1mv stC apC.name)
                ((alook stC.N (stC.order.getD (idxOf stC.order apC.name - 1) "")).getD 0)
                1)) ∧
    alook (setCurvature rfC apC stC).g2_plus apC.name =
      some (g2SpecPlusX rfC (thPlus rfC (val0 apC.psi2.value) 1) (apXY apC)
              (g1pv stC apC.name) ((alook stC.N apC.name).getD 0) 1,
            g2SpecY rfC (thPlus rfC (val0 apC.psi2.value) 1) (g1pv stC apC.name)
              (g2SpecPlusX rfC (thPlus rfC (val0 apC.psi2.value) 1) (apXY apC)
                (g1pv stC apC.name) ((alook stC.N apC.name).getD 0) 1)) ∧
    (setCurvatureLe rfC cfgB [keyTE1, keyLE, keyTE2] [(keyTE1, 4), (keyLE, 4)]
        [] [] []).1 =
      (g2SpecX rfC (val0 cfgB.psi1_le.value)
         ((alook ([] : List (String × Point)) keyLE).getD (0, 0))
         ((alook ([] : List (String × Point)) keyLE).getD (0, 0))
         ((alook [(keyTE1, 4), (keyLE, 4)]
           ([keyTE1, keyLE, keyTE2].getD (idxOf [keyTE1, keyLE, keyTE2] keyLE - 1) "")).getD 0)
         2,
       g2SpecY rfC (val0 cfgB.psi1_le.value)
         ((alook ([] : List (String × Point)) keyLE).getD (0, 0))
         (g2SpecX rfC (val0 cfgB.psi1_le.value)
           ((alook ([] : List (String × Point)) keyLE).getD (0, 0))
           ((alook ([] : List (String × Point)) keyLE).getD (0, 0))
           ((alook [(keyTE1, 4), (keyLE, 4)]
             ([keyTE1, keyLE, keyTE2].getD (idxOf [keyTE1, keyLE, keyTE2] keyLE - 1) "")).getD 0)
           2)) ∧
    (setCurvatureLe rfC cfgB [keyTE1, keyLE, keyTE2] [(keyTE1, 4), (keyLE, 4)]
        [] [] []).2 =
      (g2SpecPlusX rfC (-val0 cfgB.psi2_le.value)
         ((alook ([] : List (String × Point)) keyLE).getD (0, 0))
         ((alook ([] : List (String × Point)) keyLE).getD (0, 0))
         ((alook [(keyTE1, 4), (keyLE, 4)] keyLE).getD 0) 2,
       g2SpecY rfC (-val0 cfgB.psi2_le.value)
         ((alook ([] : List (String × Point)) keyLE).getD (0, 0))
         (g2SpecPlusX rfC (-val0 cfgB.psi2_le.value)
           ((alook ([] : List (String × Point)) keyLE).getD (0, 0))
           ((alook ([] : List (String × Point)) keyLE).getD (0, 0))
           ((alook [(keyTE1, 4), (keyLE, 4)] keyLE).getD 0) 2))) :=
  ⟨rfl, rfl,
    C4_g2_closed_form rfC apC stC 1 cfgB [keyTE1, keyLE, keyTE2]
      [(keyTE1, 4), (keyLE, 4)] [] [] [] 2 rfl rfl⟩

theorem bern_sum_zero (g : ℕ → ℚ) (n : ℕ) (hn : 0 < n) :
    ∑ i ∈ Finset.range n, g i * ((n - 1).choose i : ℚ) * 0 ^ i * (1 - 0) ^ (n - 1 - i) =
      g 0 := by
  rw [Finset.sum_eq_single 0]
  · simp
  · intro i _ hi
    simp [zero_pow hi]
  · intro h0
    exact absurd (Finset.mem_range.mpr hn) h0

theorem bern_sum_one (g : ℕ → ℚ) (n : ℕ) (hn : 0 < n) :
    ∑ i ∈ Finset.range n, g i * ((n - 1).choose i : ℚ) * 1 ^ i * (1 - 1) ^ (n - 1 - i) =
      g (n - 1) := by
  rw [Finset.sum_eq_single (n - 1)]
  · simp
  · intro i hi hne
    have hlt : i < n := Finset.mem_range.mp hi
    have : n - 1 - i ≠ 0 := by omega
    simp [zero_pow this]
  · intro h0
    exact absurd (Finset.mem_range.mpr (by omega)) h0

theorem bezPoint_zero (P : List Point) (hP : P ≠ []) :
    bezPoint P 0 = P.getD 0 (0, 0) := by
  have hn : 0 < P.length := List.length_pos.mpr hP
  unfold bezPoint
  have h1 := bern_sum_zero (fun i => (P.getD i (0, 0)).1) P.length hn
  have h2 := bern_sum_zero (fun i => (P.getD i (0, 0)).2) P.length hn
  simp only at h1 h2
  rw [h1, h2]

theorem bezPoint_one (P : List Point) (hP : P ≠ []) :
    bezPoint P 1 = P.getD (P.length - 1) (0, 0) := by
  have hn : 0 < P.length := List.length_pos.mpr hP
  unfold bezPoint
  have h1 := bern_sum_one (fun i => (P.getD i (0, 0)).1) P.length hn
  have h2 := bern_sum_one (fun i => (P.getD i (0, 0)).2) P.length hn
  simp only at h1 h2
  rw [h1, h2]

theorem head_getD (l : List Point) (hl : l ≠ []) : l.head? = some (l.getD 0 (0, 0)) := by
  cases l with
  | nil => exact absurd rfl hl
  | cons a rest => simp [List.getD_cons_zero]

theorem getLast_getD (l : List Point) (hl : l ≠ []) :
    l.getLast? = some (l.getD (l.length - 1) (0, 0)) := by
  induction l with
  | nil => exact absurd rfl hl
  | cons a rest ih =>
    cases rest with
    | nil => simp [List.getD_cons_zero]
    | cons b r2 =>
      rw [List.getLast?_cons_cons, ih (by simp)]
      congr 1

theorem linspace01_head (nt : ℕ) (h : 2 ≤ nt) : (linspace01 nt).head? = some 0 := by
  obtain ⟨m, rfl⟩ : ∃ m, nt = m + 2 := ⟨nt - 2, by omega⟩
  simp [linspace01, List.range_succ_eq_map]

theorem linspace01_getLast (nt : ℕ) (h : 2 ≤ nt) :
    (linspace01 nt).getLast? = some 1 := by
  obtain ⟨m, rfl⟩ : ∃ m, nt = m + 2 := ⟨nt - 2, by omega⟩
  unfold linspace01
  rw [List.range_succ, List.map_append, List.map_cons, List.map_nil,
    List.getLast?_concat]
  have hm1 : ((m : ℚ) + 1) ≠ 0 := by positivity
  have hcast : ((m + 2 : ℕ) : ℚ) - 1 = (m : ℚ) + 1 := by push_cast; ring
  have hcast2 : ((m + 1 : ℕ) : ℚ) = (m : ℚ) + 1 := by push_cast; ring
  rw [hcast, hcast2, div_self hm1]

/-- C10: for every nonempty control-point list and sample count `nt ≥ 2`, the Bezier
evaluator's first sampled position equals the first control point and its last
sampled position equals the last control point; consequently adjacent segments that
share an endpoint control point meet positionally at the shared boundary sample. -/
theorem C10_bezier_endpoint_interpolation (P : List Point) (nt : ℕ)
    (hP : P ≠ []) (hnt : 2 ≤ nt) :
    (bezierPos P nt).head? = P.head? ∧
    (bezierPos P nt).getLast? = P.getLast? ∧
    ∀ Q : List Point, P.getLast? = Q.head? →
      (bezierPos P nt).getLast? = (bezierPos Q nt).head? := by
  have hhead : (bezierPos P nt).head? = P.head? := by
    unfold bezierPos
    rw [List.head?_map, linspace01_head nt hnt]
    simp only [Option.map_some']
    rw [bezPoint_zero P hP, head_getD P hP]
  have hlast : (bezierPos P nt).getLast? = P.getLast? := by
    unfold bezierPos
    rw [List.getLast?_map, linspace01_getLast nt hnt]
    simp only [Option.map_some']
    rw [bezPoint_one P hP, getLast_getD P hP]
  refine ⟨hhead, hlast, ?_⟩
  intro Q hshare
  have hQ : Q ≠ [] := by
    intro hc
    subst hc
    simp only [List.head?_nil] at hshare
    rw [List.getLast?_eq_none_iff] at hshare
    exact hP hshare
  have hheadQ : (bezierPos Q nt).head? = Q.head? := by
    unfold bezierPos
    rw [List.head?_map, linspace01_head nt hnt]
    simp only [Option.map_some']
    rw [bezPoint_zero Q hQ, head_getD Q hQ]
  rw [hlast, hheadQ, hshare]

/-- Witness for C10 at a concrete input. -/
theorem C10_witness :
    ([((0 : ℚ), (0 : ℚ)), (1, 2), (3, 1)] : List Point) ≠ [] ∧ 2 ≤ 3 ∧
    ((bezierPos [((0 : ℚ), (0 : ℚ)), (1, 2), (3, 1)] 3).head? =
        ([((0 : ℚ), (0 : ℚ)), (1, 2), (3, 1)] : List Point).head? ∧
      (bezierPos [((0 : ℚ), (0 : ℚ)), (1, 2), (3, 1)] 3).getLast? =
        ([((0 : ℚ), (0 : ℚ)), (1, 2), (3, 1)] : List Point).getLast? ∧
      ∀ Q : List Point,
        ([((0 : ℚ), (0 : ℚ)), (1, 2), (3, 1)] : List Point).getLast? = Q.head? →
          (bezierPos [((0 : ℚ), (0 : ℚ)), (1, 2), (3, 1)] 3).getLast? =
            (bezierPos Q 3).head?) :=
  ⟨by simp, by norm_num,
    C10_bezier_endpoint_interpolation [((0 : ℚ), (0 : ℚ)), (1, 2), (3, 1)] 3
      (by simp) (by norm_num)⟩

/-- Combined overrideable-parameter count of a tuple of anchor points. -/
def aCount (as : List AnchorPoint) : ℕ := (as.map (fun a => countOv (apList a))).sum

/-- Combined overrideable-parameter count of a tuple of free points. -/
def fCount (fs : List FreePoint) : ℕ := (fs.map (fun f => countOv (fpList f))).sum

theorem totalCount_eq (b : BaseAirfoilParams) (aps : List AnchorPoint)
    (fps : List FreePoint) :
    totalCount b aps fps = countOv (baseList b) + (aCount aps + fCount fps) := rfl

theorem sliceL_length {α : Type} (l : List α) (s n : ℕ) :
    (sliceL l s (s + n)).length = min n (l.length - s) := by
  simp [sliceL]

theorem overrideList_ok_iff (ps : List Param) (vs : List (Option ℚ)) :
    eOk (overrideList ps vs) = true ↔ vs.length = countOv ps := by
  by_cases h : vs.length = countOv ps <;> simp [overrideList, h, eOk]

theorem apOverride_ok_iff (a : AnchorPoint) (vs : List (Option ℚ)) :
    eOk (apOverride a vs) = true ↔ vs.length = countOv (apList a) := by
  rw [← overrideList_ok_iff]
  unfold apOverride
  cases h : overrideList (apList a) vs <;> simp [eOk, h]

theorem fpOverride_ok_iff (f : FreePoint) (vs : List (Option ℚ)) :
    eOk (fpOverride f vs) = true ↔ vs.length = countOv (fpList f) := by
  rw [← overrideList_ok_iff]
  unfold fpOverride
  cases h : overrideList (fpList f) vs <;> simp [eOk, h]

theorem baseOverride_ok_iff (b : BaseAirfoilParams) (vs : List (Option ℚ)) :
    eOk (baseOverride b vs) = true ↔ vs.length = countOv (baseList b) := by
  rw [← overrideList_ok_iff]
  unfold baseOverride
  cases h : overrideList (baseList b) vs <;> simp [eOk, h]

theorem countOv_apList_cond (a : AnchorPoint) (cN : Option ℚ) (nd : Bool) :
    countOv (apList (if nd then { a with length_scale_dimension := cN } else a)) =
      countOv (apList a) := by
  cases nd <;> rfl

theorem countOv_fpList_cond (f : FreePoint) (cN : Option ℚ) (nd : Bool) :
    countOv (fpList (if nd then { f with length_scale_dimension := cN } else f)) =
      countOv (fpList f) := by
  cases nd <;> rfl

theorem overrideAnchors_cons_eq (cN : Option ℚ) (nd : Bool) (a : AnchorPoint)
    (rest : List AnchorPoint) (s : ℕ) (vals : List (Option ℚ)) :
    overrideAnchors cN nd (a :: rest) s vals =
      match apOverride (if nd then { a with length_scale_dimension := cN } else a)
          (sliceL vals s
            (s + countOv (apList (if nd then { a with length_scale_dimension := cN } else a)))) with
      | .error e => .error e
      | .ok a3 =>
        match overrideAnchors cN nd rest
            (s + countOv (apList (if nd then { a with length_scale_dimension := cN } else a))) vals with
        | .error e => .error e
        | .ok (as3, e3) => .ok (a3 :: as3, e3) := rfl

theorem overrideFrees_cons_eq (cN : Option ℚ) (nd : Bool) (f : FreePoint)
    (rest : List FreePoint) (s : ℕ) (vals : List (Option ℚ)) :
    overrideFrees cN nd (f :: rest) s vals =
      match fpOverride (if nd then { f with length_scale_dimension := cN } else f)
          (sliceL vals s
            (s + countOv (fpList (if nd then { f with length_scale_dimension := cN } else f)))) with
      | .error e => .error e
      | .ok f3 =>
        match overrideFrees cN nd rest
            (s + countOv (fpList (if nd then { f with length_scale_dimension := cN } else f))) vals with
        | .error e => .error e
        | .ok (fs3, e3) => .ok (f3 :: fs3, e3) := rfl

theorem overrideAnchors_ok_iff (cN : Option ℚ) (nd : Bool) (as : List AnchorPoint)
    (vals : List (Option ℚ)) : ∀ s : ℕ,
    eOk (overrideAnchors cN nd as s vals) = true ↔
      (aCount as = 0 ∨ s + aCount as ≤ vals.length) := by
  induction as with
  | nil =>
    intro s
    exact ⟨fun _ => Or.inl rfl, fun _ => rfl⟩
  | cons a rest ih =>
    intro s
    have hn : countOv (apList (if nd then { a with length_scale_dimension := cN } else a)) =
        countOv (apList a) := countOv_apList_cond a cN nd
    have hsum : aCount (a :: rest) = countOv (apList a) + aCount rest := by
      simp [aCount]
    rw [overrideAnchors_cons_eq]
    cases happ : apOverride (if nd then { a with length_scale_dimension := cN } else a)
        (sliceL vals s
          (s + countOv (apList (if nd then { a with length_scale_dimension := cN } else a)))) with
    | error e =>
      have hlen : ¬((sliceL vals s
          (s + countOv (apList (if nd then { a with length_scale_dimension := cN } else a)))).length =
            countOv (apList (if nd then { a with length_scale_dimension := cN } else a))) := by
        intro hc
        have h2 := (apOverride_ok_iff _ _).mpr hc
        rw [happ] at h2
        simp [eOk] at h2
      rw [sliceL_length, hn] at hlen
      simp only [eOk, Bool.false_eq_true, false_iff, hsum]
      intro hc
      omega
    | ok a3 =>
      have hok := (apOverride_ok_iff (if nd then { a with length_scale_dimension := cN } else a)
        (sliceL vals s
          (s + countOv (apList (if nd then { a with length_scale_dimension := cN } else a))))).mp
        (by rw [happ]; rfl)
      rw [sliceL_length, hn] at hok
      cases hrec : overrideAnchors cN nd rest
          (s + countOv (apList (if nd then { a with length_scale_dimension := cN } else a))) vals with
      | error e =>
        have hr := ih (s + countOv (apList (if nd then { a with length_scale_dimension := cN } else a)))
        rw [hrec] at hr
        simp only [eOk, Bool.false_eq_true, false_iff] at hr
        rw [hn] at hr
        simp only [eOk, Bool.false_eq_true, false_iff, hsum]
        intro hc
        omega
      | ok pr =>
        have hr := ih (s + countOv (apList (if nd then { a with length_scale_dimension := cN } else a)))
        rw [hrec] at hr
        have hr2 := hr.mp rfl
        rw [hn] at hr2
        simp only [eOk, hsum]
        exact ⟨fun _ => by omega, fun _ => trivial⟩

theorem overrideFrees_ok_iff (cN : Option ℚ) (nd : Bool) (fs : List FreePoint)
    (vals : List (Option ℚ)) : ∀ s : ℕ,
    eOk (overrideFrees cN nd fs s vals) = true ↔
      (fCount fs = 0 ∨ s + fCount fs ≤ vals.length) := by
  induction fs with
  | nil =>
    intro s
    exact ⟨fun _ => Or.inl rfl, fun _ => rfl⟩
  | cons f rest ih =>
    intro s
    have hn : countOv (fpList (if nd then { f with length_scale_dimension := cN } else f)) =
        countOv (fpList f) := countOv_fpList_cond f cN nd
    have hsum : fCount (f :: rest) = countOv (fpList f) + fCount rest := by
      simp [fCount]
    rw [overrideFrees_cons_eq]
    cases happ : fpOverride (if nd then { f with length_scale_dimension := cN } else f)
        (sliceL vals s
          (s + countOv (fpList (if nd then { f with length_scale_dimension := cN } else f)))) with
    | error e =>
      have hlen : ¬((sliceL vals s
          (s + countOv (fpList (if nd then { f with length_scale_dimension := cN } else f)))).length =
            countOv (fpList (if nd then { f with length_scale_dimension := cN } else f))) := by
        intro hc
        have h2 := (fpOverride_ok_iff _ _).mpr hc
        rw [happ] at h2
        simp [eOk] at h2
      rw [sliceL_length, hn] at hlen
      simp only [eOk, Bool.false_eq_true, false_iff, hsum]
      intro hc
      omega
    | ok f3 =>
      have hok := (fpOverride_ok_iff (if nd then { f with length_scale_dimension := cN } else f)
        (sliceL vals s
          (s + countOv (fpList (if nd then { f with length_scale_dimension := cN } else f))))).mp
        (by rw [happ]; rfl)
      rw [sliceL_length, hn] at hok
      cases hrec : overrideFrees cN nd rest
          (s + countOv (fpList (if nd then { f with length_scale_dimension := cN } else f))) vals with
      | error e =>
        have hr := ih (s + countOv (fpList (if nd then { f with length_scale_dimension := cN } else f)))
        rw [hrec] at hr
        simp only [eOk, Bool.false_eq_true, false_iff] at hr
        rw [hn] at hr
        simp only [eOk, Bool.false_eq_true, false_iff, hsum]
        intro hc
        omega
      | ok pr =>
        have hr := ih (s + countOv (fpList (if nd then { f with length_scale_dimension := cN } else f)))
        rw [hrec] at hr
        have hr2 := hr.mp rfl
        rw [hn] at hr2
        simp only [eOk, hsum]
        exact ⟨fun _ => by omega, fun _ => trivial⟩

/-- Placeholder anchor point for positional (`getD`) statements. -/
def apDflt : AnchorPoint :=
  { name := "", previous_anchor_point := "", x := pZ, y := pZ, L := pZ, R := pZ,
    r := pZ, phi := pZ, psi1 := pZ, psi2 := pZ }

/-- Placeholder free point for positional (`getD`) statements. -/
def fpDflt : FreePoint := { previous_anchor_point := "", x := pZ, y := pZ }

theorem aCount_cons (a : AnchorPoint) (l : List AnchorPoint) :
    aCount (a :: l) = countOv (apList a) + aCount l := by
  simp [aCount]

theorem fCount_cons (f : FreePoint) (l : List FreePoint) :
    fCount (f :: l) = countOv (fpList f) + fCount l := by
  simp [fCount]

theorem overrideAnchors_parts (cN : Option ℚ) (nd : Bool) :
    ∀ (as : List AnchorPoint) (s : ℕ) (vals : List (Option ℚ))
      (as2 : List AnchorPoint) (e : ℕ),
    overrideAnchors cN nd as s vals = .ok (as2, e) →
      e = s + aCount as ∧ as2.length = as.length ∧
      ∀ k, k < as.length →
        apOverride
          (if nd then { as.getD k apDflt with length_scale_dimension := cN }
           else as.getD k apDflt)
          (sliceL vals (s + aCount (as.take k))
            (s + aCount (as.take k) + countOv (apList (as.getD k apDflt)))) =
          .ok (as2.getD k apDflt) := by
  intro as
  induction as with
  | nil =>
    intro s vals as2 e h
    simp only [overrideAnchors] at h
    injection h with h2
    injection h2 with ha he
    refine ⟨by rw [← he]; simp [aCount, fCount], by rw [← ha], ?_⟩
    intro k hk
    simp at hk
  | cons a rest ih =>
    intro s vals as2 e h
    have hn : countOv (apList (if nd then { a with length_scale_dimension := cN } else a)) =
        countOv (apList a) := countOv_apList_cond a cN nd
    rw [overrideAnchors_cons_eq] at h
    cases happ : apOverride (if nd then { a with length_scale_dimension := cN } else a)
        (sliceL vals s
          (s + countOv (apList (if nd then { a with length_scale_dimension := cN } else a)))) with
    | error e2 =>
      rw [happ] at h
      exact absurd h (by simp)
    | ok a3 =>
      rw [happ] at h
      cases hrec : overrideAnchors cN nd rest
          (s + countOv (apList (if nd then { a with length_scale_dimension := cN } else a))) vals with
      | error e2 =>
        rw [hrec] at h
        exact absurd h (by simp)
      | ok pr =>
        rw [hrec] at h
        obtain ⟨as3, e3⟩ := pr
        injection h with h2
        injection h2 with ha he
        obtain ⟨ihe, ihlen, ihk⟩ := ih (s + countOv (apList (if nd then { a with length_scale_dimension := cN } else a))) vals as3 e3 hrec
        subst ha
        subst he
        refine ⟨?_, ?_, ?_⟩
        · rw [ihe, hn, aCount_cons]
          omega
        · simp [ihlen]
        · intro k hk
          cases k with
          | zero =>
            simp only [List.getD_cons_zero, List.take_zero, aCount, List.map_nil,
              List.sum_nil, Nat.add_zero]
            rw [← hn]
            exact happ
          | succ k2 =>
            have hk2 : k2 < rest.length := by
              simp at hk
              omega
            have := ihk k2 hk2
            simp only [List.getD_cons_succ, List.take_succ_cons, aCount_cons]
            rw [hn] at this
            have harith : s + countOv (apList a) + aCount (rest.take k2) =
                s + (countOv (apList a) + aCount (rest.take k2)) := by omega
            rw [harith] at this
            exact this

theorem overrideFrees_parts (cN : Option ℚ) (nd : Bool) :
    ∀ (fs : List FreePoint) (s : ℕ) (vals : List (Option ℚ))
      (fs2 : List FreePoint) (e : ℕ),
    overrideFrees cN nd fs s vals = .ok (fs2, e) →
      e = s + fCount fs ∧ fs2.length = fs.length ∧
      ∀ k, k < fs.length →
        fpOverride
          (if nd then { fs.getD k fpDflt with length_scale_dimension := cN }
           else fs.getD k fpDflt)
          (sliceL vals (s + fCount (fs.take k))
            (s + fCount (fs.take k) + countOv (fpList (fs.getD k fpDflt)))) =
          .ok (fs2.getD k fpDflt) := by
  intro fs
  induction fs with
  | nil =>
    intro s vals fs2 e h
    simp only [overrideFrees] at h
    injection h with h2
    injection h2 with ha he
    refine ⟨by rw [← he]; simp [aCount, fCount], by rw [← ha], ?_⟩
    intro k hk
    simp at hk
  | cons f rest ih =>
    intro s vals fs2 e h
    have hn : countOv (fpList (if nd then { f with length_scale_dimension := cN } else f)) =
        countOv (fpList f) := countOv_fpList_cond f cN nd
    rw [overrideFrees_cons_eq] at h
    cases happ : fpOverride (if nd then { f with length_scale_dimension := cN } else f)
        (sliceL vals s
          (s + countOv (fpList (if nd then { f with length_scale_dimension := cN } else f)))) with
    | error e2 =>
      rw [happ] at h
      exact absurd h (by simp)
    | ok f3 =>
      rw [happ] at h
      cases hrec : overrideFrees cN nd rest
          (s + countOv (fpList (if nd then { f with length_scale_dimension := cN } else f))) vals with
      | error e2 =>
        rw [hrec] at h
        exact absurd h (by simp)
      | ok pr =>
        rw [hrec] at h
        obtain ⟨fs3, e3⟩ := pr
        injection h with h2
        injection h2 with ha he
        obtain ⟨ihe, ihlen, ihk⟩ := ih (s + countOv (fpList (if nd then { f with length_scale_dimension := cN } else f))) vals fs3 e3 hrec
        subst ha
        subst he
        refine ⟨?_, ?_, ?_⟩
        · rw [ihe, hn, fCount_cons]
          omega
        · simp [ihlen]
        · intro k hk
          cases k with
          | zero =>
            simp only [List.getD_cons_zero, List.take_zero, fCount, List.map_nil,
              List.sum_nil, Nat.add_zero]
            rw [← hn]
            exact happ
          | succ k2 =>
            have hk2 : k2 < rest.length := by
              simp at hk
              omega
            have := ihk k2 hk2
            simp only [List.getD_cons_succ, List.take_succ_cons, fCount_cons]
            rw [hn] at this
            have harith : s + countOv (fpList f) + fCount (rest.take k2) =
                s + (countOv (fpList f) + fCount (rest.take k2)) := by omega
            rw [harith] at this
            exact this

theorem airfoilOverrideParams_eq (b : BaseAirfoilParams) (aps : List AnchorPoint)
    (fps : List FreePoint) (vals : List (Option ℚ)) :
    airfoilOverrideParams b aps fps vals =
      match baseOverride b (sliceL vals 0 (countOv (baseList b))) with
      | .error e => .error e
      | .ok b2 =>
        match overrideAnchors b2.c.value b2.non_dim_by_chord aps
            (countOv (baseList b)) vals with
        | .error e => .error e
        | .ok (as2, s2) =>
          match overrideFrees b2.c.value b2.non_dim_by_chord fps s2 vals with
          | .error e => .error e
          | .ok (fs2, _) => .ok (b2, as2, fs2) := rfl

/-- C3 amended: the override vector passed to the `Airfoil` (at construction or via
`override`) is rejected with a length-mismatch error if and only if it holds FEWER
values than the total active-and-unlinked parameter count of descriptor plus anchor
points plus free points; a vector with extra trailing values is accepted and the
extras are silently ignored (nothing checks that the final running index reached the
end of the vector).  When it is accepted, values are consumed positionally in the
fixed order descriptor → anchor points (tuple order) → free points (tuple order),
each object receiving the slice at its cumulative offset through its own `override`,
which re-applies unit scaling. -/
theorem C3_override_length_and_order (b : BaseAirfoilParams) (aps : List AnchorPoint)
    (fps : List FreePoint) (vals : List (Option ℚ)) :
    (eOk (airfoilOverrideParams b aps fps vals) = true ↔
      totalCount b aps fps ≤ vals.length) ∧
    ∀ b2 as2 fs2, airfoilOverrideParams b aps fps vals = .ok (b2, as2, fs2) →
      baseOverride b (sliceL vals 0 (countOv (baseList b))) = .ok b2 ∧
      as2.length = aps.length ∧ fs2.length = fps.length ∧
      (∀ k, k < aps.length →
        apOverride
          (if b2.non_dim_by_chord then
            { aps.getD k apDflt with length_scale_dimension := b2.c.value }
           else aps.getD k apDflt)
          (sliceL vals (countOv (baseList b) + aCount (aps.take k))
            (countOv (baseList b) + aCount (aps.take k) +
              countOv (apList (aps.getD k apDflt)))) = .ok (as2.getD k apDflt)) ∧
      (∀ k, k < fps.length →
        fpOverride
          (if b2.non_dim_by_chord then
            { fps.getD k fpDflt with length_scale_dimension := b2.c.value }
           else fps.getD k fpDflt)
          (sliceL vals (countOv (baseList b) + aCount aps + fCount (fps.take k))
            (countOv (baseList b) + aCount aps + fCount (fps.take k) +
              countOv (fpList (fps.getD k fpDflt)))) = .ok (fs2.getD k fpDflt)) := by
  constructor
  · rw [airfoilOverrideParams_eq, totalCount_eq]
    cases hb : baseOverride b (sliceL vals 0 (countOv (baseList b))) with
    | error e =>
      simp only []
      have hlen : ¬((sliceL vals 0 (countOv (baseList b))).length = countOv (baseList b)) := by
        intro hc
        have h2 := (baseOverride_ok_iff b _).mpr hc
        rw [hb] at h2
        simp [eOk] at h2
      have hsl := sliceL_length vals 0 (countOv (baseList b))
      simp only [Nat.zero_add] at hsl
      rw [hsl] at hlen
      simp only [eOk, Bool.false_eq_true, false_iff]
      omega
    | ok b2 =>
      simp only []
      have hbl : (sliceL vals 0 (countOv (baseList b))).length = countOv (baseList b) :=
        (baseOverride_ok_iff b _).mp (by rw [hb]; rfl)
      have hsl := sliceL_length vals 0 (countOv (baseList b))
      simp only [Nat.zero_add] at hsl
      rw [hsl] at hbl
      cases ha : overrideAnchors b2.c.value b2.non_dim_by_chord aps
          (countOv (baseList b)) vals with
      | error e =>
        simp only []
        have hr := overrideAnchors_ok_iff b2.c.value b2.non_dim_by_chord aps vals
          (countOv (baseList b))
        rw [ha] at hr
        simp only [eOk, Bool.false_eq_true, false_iff] at hr
        simp only [eOk, Bool.false_eq_true, false_iff]
        omega
      | ok pr =>
        obtain ⟨as2, s2⟩ := pr
        simp only []
        have hr := overrideAnchors_ok_iff b2.c.value b2.non_dim_by_chord aps vals
          (countOv (baseList b))
        rw [ha] at hr
        have hr2 := hr.mp rfl
        have hs2 := (overrideAnchors_parts b2.c.value b2.non_dim_by_chord aps
          (countOv (baseList b)) vals as2 s2 ha).1
        cases hf : overrideFrees b2.c.value b2.non_dim_by_chord fps s2 vals with
        | error e =>
          simp only []
          have hfr := overrideFrees_ok_iff b2.c.value b2.non_dim_by_chord fps vals s2
          rw [hf] at hfr
          simp only [eOk, Bool.false_eq_true, false_iff] at hfr
          simp only [eOk, Bool.false_eq_true, false_iff]
          omega
        | ok pr2 =>
          obtain ⟨fs2, e2⟩ := pr2
          simp only []
          have hfr := overrideFrees_ok_iff b2.c.value b2.non_dim_by_chord fps vals s2
          rw [hf] at hfr
          have hfr2 := hfr.mp rfl
          simp only [eOk, true_iff]
          omega
  · intro b2 as2 fs2 h
    rw [airfoilOverrideParams_eq] at h
    cases hb : baseOverride b (sliceL vals 0 (countOv (baseList b))) with
    | error e =>
      rw [hb] at h
      exact absurd h (by simp)
    | ok b3 =>
      rw [hb] at h
      simp only [] at h
      cases ha : overrideAnchors b3.c.value b3.non_dim_by_chord aps
          (countOv (baseList b)) vals with
      | error e =>
        rw [ha] at h
        exact absurd h (by simp)
      | ok pr =>
        rw [ha] at h
        obtain ⟨as3, s2⟩ := pr
        simp only [] at h
        cases hf : overrideFrees b3.c.value b3.non_dim_by_chord fps s2 vals with
        | error e =>
          rw [hf] at h
          exact absurd h (by simp)
        | ok pr2 =>
          rw [hf] at h
          obtain ⟨fs3, e2⟩ := pr2
          simp only [] at h
          injection h with h2
          injection h2 with hbeq h3
          injection h3 with haeq hfeq
          subst hbeq
          subst haeq
          subst hfeq
          obtain ⟨hs2, halen, hak⟩ := overrideAnchors_parts b3.c.value
            b3.non_dim_by_chord aps (countOv (baseList b)) vals as3 s2 ha
          obtain ⟨he2, hflen, hfk⟩ := overrideFrees_parts b3.c.value
            b3.non_dim_by_chord fps s2 vals fs3 e2 hf
          subst hs2
          exact ⟨rfl, halen, hflen, hak, hfk⟩

/-- A descriptor whose parameters are all inactive (overrideable count zero) and
with `non_dim_by_chord` off. -/
def cfgBTrivial : BaseAirfoilParams :=
  { c := pZi, alf := pZi, R_le := pZi, L_le := pZi, r_le := pZi, phi_le := pZi,
    psi1_le := pZi, psi2_le := pZi, L1_te := pZi, L2_te := pZi, theta1_te := pZi,
    theta2_te := pZi, t_te := pZi, r_te := pZi, phi_te := pZi, dx := pZi, dy := pZi,
    non_dim_by_chord := false }

/-- Witness for the amended C3 theorem at a concrete input. -/
theorem C3_witness :
    airfoilOverrideParams cfgBTrivial [] [] [] = .ok (cfgBTrivial, [], []) ∧
    (baseOverride cfgBTrivial (sliceL [] 0 (countOv (baseList cfgBTrivial))) =
        .ok cfgBTrivial ∧
      ([] : List AnchorPoint).length = ([] : List AnchorPoint).length ∧
      ([] : List FreePoint).length = ([] : List FreePoint).length ∧
      (∀ k, k < ([] : List AnchorPoint).length →
        apOverride
          (if cfgBTrivial.non_dim_by_chord then
            { ([] : List AnchorPoint).getD k apDflt with
                length_scale_dimension := cfgBTrivial.c.value }
           else ([] : List AnchorPoint).getD k apDflt)
          (sliceL [] (countOv (baseList cfgBTrivial) + aCount (([] : List AnchorPoint).take k))
            (countOv (baseList cfgBTrivial) + aCount (([] : List AnchorPoint).take k) +
              countOv (apList (([] : List AnchorPoint).getD k apDflt)))) =
          .ok (([] : List AnchorPoint).getD k apDflt)) ∧
      (∀ k, k < ([] : List FreePoint).length →
        fpOverride
          (if cfgBTrivial.non_dim_by_chord then
            { ([] : List FreePoint).getD k fpDflt with
                length_scale_dimension := cfgBTrivial.c.value }
           else ([] : List FreePoint).getD k fpDflt)
          (sliceL [] (countOv (baseList cfgBTrivial) + aCount ([] : List AnchorPoint) +
              fCount (([] : List FreePoint).take k))
            (countOv (baseList cfgBTrivial) + aCount ([] : List AnchorPoint) +
              fCount (([] : List FreePoint).take k) +
              countOv (fpList (([] : List FreePoint).getD k fpDflt)))) =
          .ok (([] : List FreePoint).getD k fpDflt))) :=
  ⟨rfl, (C3_override_length_and_order cfgBTrivial [] [] []).2 cfgBTrivial [] [] rfl⟩

/-- C3 counterexample: the claim says the call fails with a length-mismatch error
UNLESS the vector's length equals the total active-and-unlinked count.  The total
for the concrete descriptor (no anchor or free points) is 11, yet a 12-value vector
is accepted: the code never checks that the running index consumed the whole
vector, so the trailing value is silently ignored. -/
theorem C3_counterexample :
    totalCount cfgB [] [] = 11 ∧
    (List.replicate 12 (some (0 : ℚ))).length = 12 ∧
    eOk (airfoilOverrideParams cfgB [] [] (List.replicate 12 (some 0))) = true := by
  refine ⟨?_, by simp, ?_⟩
  · norm_num [totalCount, countOv, baseList, overrideable, cfgB, pC2, pZ, pHalf,
      pZi, pLen0i, pHalfI, aCount, fCount]
  · norm_num [airfoilOverrideParams, baseOverride, overrideList, countOv, baseList,
      overrideable, cfgB, pC2, pZ, pHalf, pZi, pLen0i, pHalfI, sliceL,
      List.replicate, assignVals, baseScaleVars, baseSet, scaleVarsSeq, scaleParam,
      val0, overrideAnchors, overrideFrees, eOk]

@[simp] theorem setSlope_order (rf : RealFuns) (ap : AnchorPoint) (st : AirState) :
    (setSlope rf ap st).order = st.order := by
  unfold setSlope
  split <;> rfl

@[simp] theorem setSlope_N (rf : RealFuns) (ap : AnchorPoint) (st : AirState) :
    (setSlope rf ap st).N = st.N := by
  unfold setSlope
  split <;> rfl

@[simp] theorem setSlope_anchor_points (rf : RealFuns) (ap : AnchorPoint)
    (st : AirState) : (setSlope rf ap st).anchor_points = st.anchor_points := by
  unfold setSlope
  split <;> rfl

@[simp] theorem setSlope_free_points (rf : RealFuns) (ap : AnchorPoint)
    (st : AirState) : (setSlope rf ap st).free_points = st.free_points := by
  unfold setSlope
  split <;> rfl

@[simp] theorem setSlope_g2_minus (rf : RealFuns) (ap : AnchorPoint)
    (st : AirState) : (setSlope rf ap st).g2_minus = st.g2_minus := by
  unfold setSlope
  split <;> rfl

@[simp] theorem setSlope_g2_plus (rf : RealFuns) (ap : AnchorPoint)
    (st : AirState) : (setSlope rf ap st).g2_plus = st.g2_plus := by
  unfold setSlope
  split <;> rfl

theorem setSlope_g1_minus (rf : RealFuns) (ap : AnchorPoint) (st : AirState) :
    ∃ v, (setSlope rf ap st).g1_minus = aupd st.g1_minus ap.name v := by
  unfold setSlope
  split
  · exact ⟨_, rfl⟩
  · exact ⟨_, rfl⟩

theorem setSlope_g1_plus (rf : RealFuns) (ap : AnchorPoint) (st : AirState) :
    ∃ v, (setSlope rf ap st).g1_plus = aupd st.g1_plus ap.name v := by
  unfold setSlope
  split
  · exact ⟨_, rfl⟩
  · exact ⟨_, rfl⟩

@[simp] theorem setCurvature_order (rf : RealFuns) (ap : AnchorPoint)
    (st : AirState) : (setCurvature rf ap st).order = st.order := by
  cases hR : ap.R.value <;> simp [setCurvature, hR]

@[simp] theorem setCurvature_N (rf : RealFuns) (ap : AnchorPoint) (st : AirState) :
    (setCurvature rf ap st).N = st.N := by
  cases hR : ap.R.value <;> simp [setCurvature, hR]

@[simp] theorem setCurvature_anchor_points (rf : RealFuns) (ap : AnchorPoint)
    (st : AirState) : (setCurvature rf ap st).anchor_points = st.anchor_points := by
  cases hR : ap.R.value <;> simp [setCurvature, hR]

@[simp] theorem setCurvature_free_points (rf : RealFuns) (ap : AnchorPoint)
    (st : AirState) : (setCurvature rf ap st).free_points = st.free_points := by
  cases hR : ap.R.value <;> simp [setCurvature, hR]

@[simp] theorem setCurvature_g1_minus (rf : RealFuns) (ap : AnchorPoint)
    (st : AirState) : (setCurvature rf ap st).g1_minus = st.g1_minus := by
  cases hR : ap.R.value <;> simp [setCurvature, hR]

@[simp] theorem setCurvature_g1_plus (rf : RealFuns) (ap : AnchorPoint)
    (st : AirState) : (setCurvature rf ap st).g1_plus = st.g1_plus := by
  cases hR : ap.R.value <;> simp [setCurvature, hR]

theorem setCurvature_g2_minus (rf : RealFuns) (ap : AnchorPoint) (st : AirState) :
    ∃ v, (setCurvature rf ap st).g2_minus = aupd st.g2_minus ap.name v := by
  cases hR : ap.R.value <;> simp [setCurvature, hR]

theorem setCurvature_g2_plus (rf : RealFuns) (ap : AnchorPoint) (st : AirState) :
    ∃ v, (setCurvature rf ap st).g2_plus = aupd st.g2_plus ap.name v := by
  cases hR : ap.R.value <;> simp [setCurvature, hR]

theorem addAnchorPoint_order (rf : RealFuns) (ap : AnchorPoint) (st : AirState) :
    (addAnchorPoint rf ap st).order = insertedOrder ap st := by
  simp only [addAnchorPoint]
  split <;> simp

theorem addAnchorPoint_N (rf : RealFuns) (ap : AnchorPoint) (st : AirState) :
    (addAnchorPoint rf ap st).N =
      if idxOf (insertedOrder ap st) keyLE < idxOf (insertedOrder ap st) ap.name then
        aupd (aupd st.N keyLE 5) (penultName (insertedOrder ap st)) 4
      else aupd st.N ap.name 5 := by
  simp only [addAnchorPoint]
  split
  · simp_all
  · rename_i h
    simp only [setSlope_order] at h
    rw [if_neg (by omega)]
    simp_all

/-- C6 amended: when the inserted anchor ends up after the leading edge in the
chain, `add_anchor_point` sets the leading edge's segment-order entry to 5 and sets
THE CURRENT PENULTIMATE chain entry (`order[-2]`) to 4 — which is the newly
inserted anchor precisely when it was inserted directly before the final
trailing-edge anchor, and is some other anchor otherwise (the new anchor's own
entry is then left unset).  When the inserted anchor falls before the leading edge,
only the new anchor's own entry is set, to 5.  All other entries are unchanged.
The before-leading-edge clause is unconditional; the after-leading-edge clause
assumes the penultimate entry differs from `le` (true of every chain the code
builds, since `te_2` closes the chain and an after-`le` insertion lands between
`le` and `te_2`) so that the second write cannot clobber the first. -/
theorem C6_order_table_update (rf : RealFuns) (ap : AnchorPoint) (st : AirState) :
    (idxOf (insertedOrder ap st) keyLE < idxOf (insertedOrder ap st) ap.name →
      penultName (insertedOrder ap st) ≠ keyLE →
      alook (addAnchorPoint rf ap st).N keyLE = some 5 ∧
      alook (addAnchorPoint rf ap st).N (penultName (insertedOrder ap st)) = some 4 ∧
      ∀ k, k ≠ keyLE → k ≠ penultName (insertedOrder ap st) →
        alook (addAnchorPoint rf ap st).N k = alook st.N k) ∧
    (¬(idxOf (insertedOrder ap st) keyLE < idxOf (insertedOrder ap st) ap.name) →
      alook (addAnchorPoint rf ap st).N ap.name = some 5 ∧
      ∀ k, k ≠ ap.name → alook (addAnchorPoint rf ap st).N k = alook st.N k) := by
  constructor
  · intro hcond hpen
    rw [addAnchorPoint_N, if_pos hcond]
    refine ⟨?_, ?_, ?_⟩
    · rw [alook_aupd_ne _ _ _ _ hpen.symm, alook_aupd_self]
    · rw [alook_aupd_self]
    · intro k hk1 hk2
      rw [alook_aupd_ne _ _ _ _ hk2, alook_aupd_ne _ _ _ _ hk1]
  · intro hcond
    rw [addAnchorPoint_N, if_neg hcond]
    refine ⟨alook_aupd_self _ _ _, ?_⟩
    intro k hk
    rw [alook_aupd_ne _ _ _ _ hk]

/-- Anchor `A`, inserted after the leading edge, infinite curvature radius. -/
def apA : AnchorPoint :=
  { name := "A", previous_anchor_point := keyLE,
    x := { value := some (1 / 2) }, y := { value := some (-(1 / 10)) },
    L := { value := some 1 }, R := { value := none }, r := pHalf,
    phi := pZ, psi1 := pZ, psi2 := pZ }

/-- Anchor `B`, also inserted directly after the leading edge (so that it lands
after the leading edge but NOT in penultimate position), infinite radius. -/
def apB : AnchorPoint :=
  { name := "B", previous_anchor_point := keyLE,
    x := { value := some (1 / 4) }, y := { value := some (-(1 / 5)) },
    L := { value := some 1 }, R := { value := none }, r := pHalf,
    phi := pZ, psi1 := pZ, psi2 := pZ }

/-- C6 counterexample: insert `A` after `le`, then insert `B` after `le` as well.
The second call inserts `B` after the leading edge, so the claim says the segment
started by `B` gets order 4; instead the code writes `N[order[-2]] = 4`, i.e. the
entry of `A`, and `B` gets no entry at all. -/
theorem C6_counterexample :
    (addAnchorPoint rfEx apB (addAnchorPoint rfEx apA (initCoreState rfEx cfgB))).order =
      [keyTE1, keyLE, "B", "A", keyTE2] ∧
    idxOf [keyTE1, keyLE, "B", "A", keyTE2] keyLE <
      idxOf [keyTE1, keyLE, "B", "A", keyTE2] "B" ∧
    alook (addAnchorPoint rfEx apB (addAnchorPoint rfEx apA (initCoreState rfEx cfgB))).N "B" =
      none := by
  have hord0 : (initCoreState rfEx cfgB).order = [keyTE1, keyLE, keyTE2] := rfl
  have hN0 : (initCoreState rfEx cfgB).N = [(keyTE1, 4), (keyLE, 4)] := rfl
  have h1o : (addAnchorPoint rfEx apA (initCoreState rfEx cfgB)).order =
      [keyTE1, keyLE, "A", keyTE2] := by
    rw [addAnchorPoint_order]
    simp [insertedOrder, hord0, idxOf, apA, keyTE1, keyLE, keyTE2]
  have h1N : (addAnchorPoint rfEx apA (initCoreState rfEx cfgB)).N =
      [(keyTE1, 4), (keyLE, 5), ("A", 4)] := by
    rw [addAnchorPoint_N]
    simp [insertedOrder, hord0, hN0, idxOf, penultName, aupd, apA, keyTE1, keyLE,
      keyTE2]
  have h2o : (addAnchorPoint rfEx apB (addAnchorPoint rfEx apA (initCoreState rfEx cfgB))).order =
      [keyTE1, keyLE, "B", "A", keyTE2] := by
    rw [addAnchorPoint_order]
    simp [insertedOrder, h1o, idxOf, apB, keyTE1, keyLE, keyTE2]
  refine ⟨h2o, by simp [idxOf, keyTE1, keyLE, keyTE2], ?_⟩
  rw [addAnchorPoint_N]
  simp [insertedOrder, h1o, h1N, idxOf, penultName, aupd, alook, apB, keyTE1,
    keyLE, keyTE2]

/-- Anchor `C`, inserted directly after `te_1` into the initial chain — a
before-leading-edge insertion whose resulting `order[-2]` IS the leading edge. -/
def apC2 : AnchorPoint :=
  { name := "C", previous_anchor_point := keyTE1,
    x := { value := some (1 / 2) }, y := { value := some (1 / 10) },
    L := { value := some 1 }, R := { value := none }, r := pHalf,
    phi := pZ, psi1 := pZ, psi2 := pZ }

/-- Witness for the amended C6 theorem at concrete inputs: the after-leading-edge
clause at anchor `A` (inserted after `le`), and the unconditional
before-leading-edge clause at anchor `C` (inserted after `te_1` into the initial
chain, where the penultimate entry equals `le` and the old blanket hypothesis
would have been violated). -/
theorem C6_witness :
    (idxOf (insertedOrder apA (initCoreState rfEx cfgB)) keyLE <
       idxOf (insertedOrder apA (initCoreState rfEx cfgB)) apA.name ∧
     penultName (insertedOrder apA (initCoreState rfEx cfgB)) ≠ keyLE ∧
     alook (addAnchorPoint rfEx apA (initCoreState rfEx cfgB)).N keyLE = some 5 ∧
     alook (addAnchorPoint rfEx apA (initCoreState rfEx cfgB)).N
       (penultName (insertedOrder apA (initCoreState rfEx cfgB))) = some 4) ∧
    (¬(idxOf (insertedOrder apC2 (initCoreState rfEx cfgB)) keyLE <
        idxOf (insertedOrder apC2 (initCoreState rfEx cfgB)) apC2.name) ∧
     penultName (insertedOrder apC2 (initCoreState rfEx cfgB)) = keyLE ∧
     alook (addAnchorPoint rfEx apC2 (initCoreState rfEx cfgB)).N apC2.name =
       some 5) :=
  ⟨⟨by decide, by decide,
    ((C6_order_table_update rfEx apA (initCoreState rfEx cfgB)).1 (by decide)
      (by decide)).1,
    ((C6_order_table_update rfEx apA (initCoreState rfEx cfgB)).1 (by decide)
      (by decide)).2.1⟩,
   ⟨by decide, by decide,
    ((C6_order_table_update rfEx apC2 (initCoreState rfEx cfgB)).2 (by decide)).1⟩⟩

@[simp] theorem generateCoords_control_points (nt : ℕ) (st : AirState) :
    (generateCoords nt st).control_points = st.control_points := rfl

/-- The concrete descriptor after the flatten-override round trip: the override
assigned back the very values just flattened, then `scale_vars` multiplied the four
length parameters with `scale_value = None` by the chord a second time. -/
def cfgB2 : BaseAirfoilParams :=
  { cfgB with
    R_le := { value := some 4, units := .length },
    L_le := { value := some 4, units := .length },
    L1_te := { value := some 4, units := .length },
    L2_te := { value := some 4, units := .length } }

/-- C1: the claim says flatten-then-override with the same values reproduces an
identical control polygon.  It does not: `override` re-runs `scale_vars` on the
already-scaled parameter objects (nothing records that they were scaled, see C2),
so the four length parameters double from 2 to 4 and the control polygon moves —
e.g. the support point after `te_1` moves from `(0, 0)` to `(-2, 0)`.  This
theorem evaluates the code at the failing input: the round trip succeeds, returns
the re-scaled descriptor, and the two control polygons differ. -/
theorem C1_roundtrip_not_identity :
    airfoilOverrideParams cfgB [] [] (extractParameters cfgB [] []) =
      .ok (cfgB2, [], []) ∧
    airfoilCtor rfEx 2 cfgB [] [] (some (extractParameters cfgB [] [])) =
      .ok (airfoilInit rfEx 2 cfgB2 [] []) ∧
    (airfoilInit rfEx 2 cfgB [] []).control_points =
      [(2, 0), (0, 0), (2/3, 1), (0, 1), (0, 0), (0, -1), (2/3, -1), (0, 0), (2, 0)] ∧
    (airfoilInit rfEx 2 cfgB2 [] []).control_points =
      [(2, 0), (-2, 0), (4/3, 2), (0, 2), (0, 0), (0, -2), (4/3, -2), (-2, 0), (2, 0)] ∧
    ([(2, 0), (0, 0), (2/3, 1), (0, 1), (0, 0), (0, -1), (2/3, -1), (0, 0), (2, 0)] :
        List Point) ≠
      [(2, 0), (-2, 0), (4/3, 2), (0, 2), (0, 0), (0, -2), (4/3, -2), (-2, 0), (2, 0)] := by
  have h1 : airfoilOverrideParams cfgB [] [] (extractParameters cfgB [] []) =
      .ok (cfgB2, [], []) := by
    norm_num [airfoilOverrideParams, extractParameters, flattenVals, baseOverride,
      overrideList, countOv, baseList, overrideable, assignVals, baseScaleVars,
      baseSet, scaleVarsSeq, scaleParam, val0, sliceL, overrideAnchors,
      overrideFrees, cfgB, cfgB2, pC2, pZ, pHalf, pZi, pLen0i, pHalfI]
  have h2 : (airfoilInit rfEx 2 cfgB [] []).control_points =
      [((2 : ℚ), (0 : ℚ)), (0, 0), (2/3, 1), (0, 1), (0, 0), (0, -1), (2/3, -1),
        (0, 0), (2, 0)] := by
    simp [airfoilInit, updateA, addAnchorPoints, addFreePoints, initCoreState,
      initAnchorPts, initG1Minus, initG1Plus, setCurvatureLe, orderControlPoints,
      emitBlock, aptv, g1mv, g1pv, freeOf, optP, rotateA, alook, aupd, idxOf,
      val0, keyTE1, keyLE, keyTE2, cfgB, pC2, pZ, pHalf, pZi, pLen0i, pHalfI, rfEx]
    norm_num
  have h3 : (airfoilInit rfEx 2 cfgB2 [] []).control_points =
      [((2 : ℚ), (0 : ℚ)), (-2, 0), (4/3, 2), (0, 2), (0, 0), (0, -2), (4/3, -2),
        (-2, 0), (2, 0)] := by
    simp [airfoilInit, updateA, addAnchorPoints, addFreePoints, initCoreState,
      initAnchorPts, initG1Minus, initG1Plus, setCurvatureLe, orderControlPoints,
      emitBlock, aptv, g1mv, g1pv, freeOf, optP, rotateA, alook, aupd, idxOf,
      val0, keyTE1, keyLE, keyTE2, cfgB, cfgB2, pC2, pZ, pHalf, pZi, pLen0i,
      pHalfI, rfEx]
    norm_num
  refine ⟨h1, ?_, h2, h3, by norm_num⟩
  simp [airfoilCtor, h1]

/-! ### Claim C7: control-point counting between consecutive anchors

`blockTail st first a` is the run of control points that `order_control_points`
emits from anchor `a` (inclusive) up to the end of `a`'s block; `blockHeadPts st b`
is the run it emits in `b`'s block before `b` itself.  Hence the control points
from one anchor to the next (both inclusive) are `blockTail ++ blockHeadPts ++ [b]`
and the claim's count is `(blockTail st first a).length + (blockHeadPts st b).length
+ 1`; the decomposition lemmas `emitBlock_true_eq`/`emitBlock_false_eq` tie this to
the emitted sequence. -/

/-- Number of free points attached to the segment starting at `a`. -/
def fcount (st : AirState) (a : String) : ℕ := (freeOf st a).length

/-- The points of anchor `a`'s block from the anchor itself (inclusive) onward. -/
def blockTail (st : AirState) (first : Bool) (a : String) : List Point :=
  (if first then [aptv st a, g1pv st a]
   else [aptv st a] ++ optP (alook st.g1_plus a) ++ optP (alook st.g2_plus a)) ++
    freeOf st a

/-- The points of anchor `b`'s block before `b` itself. -/
def blockHeadPts (st : AirState) (b : String) : List Point :=
  optP (alook st.g2_minus b) ++ [g1mv st b]

theorem emitBlock_true_eq (st : AirState) (a : String) :
    emitBlock st true a = blockTail st true a := rfl

theorem emitBlock_false_eq (st : AirState) (b : String) :
    emitBlock st false b = blockHeadPts st b ++ blockTail st false b := by
  simp [emitBlock, blockHeadPts, blockTail, List.append_assoc]

/-- The claim's per-segment check: the earlier anchor has a table entry `n` and the
segment from it to the next anchor (both anchors included) holds `n + 1` control
points. -/
def segOK (st : AirState) (first : Bool) (a b : String) : Bool :=
  match alook st.N a with
  | none => false
  | some n =>
    (blockTail st first a).length + (blockHeadPts st b).length + 1 == n + 1

/-- The per-segment check along the whole chain. -/
def chainOk (st : AirState) : Bool → List String → Bool
  | _, [] => true
  | _, [_] => true
  | first, a :: b :: rest => segOK st first a b && chainOk st false (b :: rest)

/-- Claim C7's invariant over the airfoil state. -/
def SegInvB (st : AirState) : Bool := chainOk st true st.order

theorem blockTail_true_len (st : AirState) (a : String) :
    (blockTail st true a).length = 2 + fcount st a := by
  simp [blockTail, fcount]
  omega

theorem blockTail_false_len (st : AirState) (a : String)
    (h1 : (alook st.g1_plus a).isSome = true)
    (h2 : (alook st.g2_plus a).isSome = true) :
    (blockTail st false a).length = 3 + fcount st a := by
  obtain ⟨v1, hv1⟩ := Option.isSome_iff_exists.mp h1
  obtain ⟨v2, hv2⟩ := Option.isSome_iff_exists.mp h2
  simp [blockTail, fcount, optP, hv1, hv2]
  omega

theorem blockHead_len_some (st : AirState) (b : String)
    (h : (alook st.g2_minus b).isSome = true) : (blockHeadPts st b).length = 2 := by
  obtain ⟨v, hv⟩ := Option.isSome_iff_exists.mp h
  simp [blockHeadPts, optP, hv]

theorem blockHead_len_none (st : AirState) (b : String)
    (h : alook st.g2_minus b = none) : (blockHeadPts st b).length = 1 := by
  simp [blockHeadPts, optP, h]

theorem alook_nIncr (l : List (String × ℕ)) (k a : String) :
    alook (nIncr l k) a =
      if a = k then (alook l a).map (· + 1) else alook l a := by
  induction l with
  | nil => by_cases h : a = k <;> simp [nIncr, alook, h]
  | cons kv rest ih =>
    by_cases h1 : kv.1 = k <;> by_cases h2 : kv.1 = a
    · have hak : a = k := h2.symm.trans h1
      simp [nIncr, alook, h1, h2, hak]
    · have hak : ¬(a = k) := fun hc => h2 (h1.trans hc.symm)
      have hka : ¬(k = a) := fun hc => h2 (h1.trans hc)
      simp only [nIncr, alook, h1, h2, hak, hka, List.map_cons, if_pos rfl,
        if_neg hka, if_neg hak]
      simpa [nIncr, hak, hka] using ih
    · have hak : ¬(a = k) := fun hc => h1 (h2.trans hc)
      simp [nIncr, alook, h1, h2, hak]
    · simp only [nIncr, List.map_cons, alook, if_neg h1, if_neg h2]
      exact ih

@[simp] theorem addFreePoint_order (fp : FreePoint) (st : AirState) :
    (addFreePoint fp st).order = st.order := rfl

@[simp] theorem addFreePoint_g1_minus (fp : FreePoint) (st : AirState) :
    (addFreePoint fp st).g1_minus = st.g1_minus := rfl

@[simp] theorem addFreePoint_g1_plus (fp : FreePoint) (st : AirState) :
    (addFreePoint fp st).g1_plus = st.g1_plus := rfl

@[simp] theorem addFreePoint_g2_minus (fp : FreePoint) (st : AirState) :
    (addFreePoint fp st).g2_minus = st.g2_minus := rfl

@[simp] theorem addFreePoint_g2_plus (fp : FreePoint) (st : AirState) :
    (addFreePoint fp st).g2_plus = st.g2_plus := rfl

theorem addFreePoint_N (fp : FreePoint) (st : AirState) :
    (addFreePoint fp st).N = nIncr st.N fp.previous_anchor_point := rfl

theorem fcount_addFreePoint (fp : FreePoint) (st : AirState) (a : String) :
    fcount (addFreePoint fp st) a =
      if a = fp.previous_anchor_point then fcount st a + 1 else fcount st a := by
  by_cases h : a = fp.previous_anchor_point
  · subst h
    simp [fcount, freeOf, addFreePoint, alook_aupd_self]
  · simp [fcount, freeOf, addFreePoint, alook_aupd_ne _ _ _ _ h, h]

theorem freeOf_addFreePoint_ne (fp : FreePoint) (st : AirState) (a : String)
    (h : a ≠ fp.previous_anchor_point) :
    freeOf (addFreePoint fp st) a = freeOf st a := by
  simp [freeOf, addFreePoint, alook_aupd_ne _ _ _ _ h]

@[simp] theorem addAnchorPoint_free_points (rf : RealFuns) (ap : AnchorPoint)
    (st : AirState) : (addAnchorPoint rf ap st).free_points = st.free_points := by
  simp only [addAnchorPoint]
  split <;> simp

theorem setSlope_g1m_ne (rf : RealFuns) (ap : AnchorPoint) (st : AirState)
    (k : String) (h : k ≠ ap.name) :
    alook (setSlope rf ap st).g1_minus k = alook st.g1_minus k := by
  unfold setSlope
  split <;> simp [alook_aupd_ne _ _ _ _ h]

theorem setSlope_g1m_self (rf : RealFuns) (ap : AnchorPoint) (st : AirState) :
    (alook (setSlope rf ap st).g1_minus ap.name).isSome = true := by
  unfold setSlope
  split <;> simp [alook_aupd_self]

theorem setSlope_g1p_ne (rf : RealFuns) (ap : AnchorPoint) (st : AirState)
    (k : String) (h : k ≠ ap.name) :
    alook (setSlope rf ap st).g1_plus k = alook st.g1_plus k := by
  unfold setSlope
  split <;> simp [alook_aupd_ne _ _ _ _ h]

theorem setSlope_g1p_self (rf : RealFuns) (ap : AnchorPoint) (st : AirState) :
    (alook (setSlope rf ap st).g1_plus ap.name).isSome = true := by
  unfold setSlope
  split <;> simp [alook_aupd_self]

theorem setCurvature_g2m_ne (rf : RealFuns) (ap : AnchorPoint) (st : AirState)
    (k : String) (h : k ≠ ap.name) :
    alook (setCurvature rf ap st).g2_minus k = alook st.g2_minus k := by
  cases hR : ap.R.value <;> simp [setCurvature, hR, alook_aupd_ne _ _ _ _ h]

theorem setCurvature_g2m_self (rf : RealFuns) (ap : AnchorPoint) (st : AirState) :
    (alook (setCurvature rf ap st).g2_minus ap.name).isSome = true := by
  cases hR : ap.R.value <;> simp [setCurvature, hR, alook_aupd_self]

theorem setCurvature_g2p_ne (rf : RealFuns) (ap : AnchorPoint) (st : AirState)
    (k : String) (h : k ≠ ap.name) :
    alook (setCurvature rf ap st).g2_plus k = alook st.g2_plus k := by
  cases hR : ap.R.value <;> simp [setCurvature, hR, alook_aupd_ne _ _ _ _ h]

theorem setCurvature_g2p_self (rf : RealFuns) (ap : AnchorPoint) (st : AirState) :
    (alook (setCurvature rf ap st).g2_plus ap.name).isSome = true := by
  cases hR : ap.R.value <;> simp [setCurvature, hR, alook_aupd_self]

theorem addAnchorPoint_g1m_ne (rf : RealFuns) (ap : AnchorPoint) (st : AirState)
    (k : String) (h : k ≠ ap.name) :
    alook (addAnchorPoint rf ap st).g1_minus k = alook st.g1_minus k := by
  have hs := setSlope_g1m_ne rf ap
    { st with order := insertedOrder ap st,
              anchor_points := aupd st.anchor_points ap.name (apXY ap) } k h
  simp only [addAnchorPoint]
  split <;> simp [hs]

theorem addAnchorPoint_g1m_self (rf : RealFuns) (ap : AnchorPoint) (st : AirState) :
    (alook (addAnchorPoint rf ap st).g1_minus ap.name).isSome = true := by
  have hs := setSlope_g1m_self rf ap
    { st with order := insertedOrder ap st,
              anchor_points := aupd st.anchor_points ap.name (apXY ap) }
  simp only [addAnchorPoint]
  split <;> simp [hs]

theorem addAnchorPoint_g1p_ne (rf : RealFuns) (ap : AnchorPoint) (st : AirState)
    (k : String) (h : k ≠ ap.name) :
    alook (addAnchorPoint rf ap st).g1_plus k = alook st.g1_plus k := by
  have hs := setSlope_g1p_ne rf ap
    { st with order := insertedOrder ap st,
              anchor_points := aupd st.anchor_points ap.name (apXY ap) } k h
  simp only [addAnchorPoint]
  split <;> simp [hs]

theorem addAnchorPoint_g1p_self (rf : RealFuns) (ap : AnchorPoint) (st : AirState) :
    (alook (addAnchorPoint rf ap st).g1_plus ap.name).isSome = true := by
  have hs := setSlope_g1p_self rf ap
    { st with order := insertedOrder ap st,
              anchor_points := aupd st.anchor_points ap.name (apXY ap) }
  simp only [addAnchorPoint]
  split <;> simp [hs]

theorem addAnchorPoint_g2m_ne (rf : RealFuns) (ap : AnchorPoint) (st : AirState)
    (k : String) (h : k ≠ ap.name) :
    alook (addAnchorPoint rf ap st).g2_minus k = alook st.g2_minus k := by
  simp only [addAnchorPoint]
  split <;> simp [setCurvature_g2m_ne, h]

theorem addAnchorPoint_g2m_self (rf : RealFuns) (ap : AnchorPoint) (st : AirState) :
    (alook (addAnchorPoint rf ap st).g2_minus ap.name).isSome = true := by
  simp only [addAnchorPoint]
  split <;> simp [setCurvature_g2m_self]

theorem addAnchorPoint_g2p_ne (rf : RealFuns) (ap : AnchorPoint) (st : AirState)
    (k : String) (h : k ≠ ap.name) :
    alook (addAnchorPoint rf ap st).g2_plus k = alook st.g2_plus k := by
  simp only [addAnchorPoint]
  split <;> simp [setCurvature_g2p_ne, h]

theorem addAnchorPoint_g2p_self (rf : RealFuns) (ap : AnchorPoint) (st : AirState) :
    (alook (addAnchorPoint rf ap st).g2_plus ap.name).isSome = true := by
  simp only [addAnchorPoint]
  split <;> simp [setCurvature_g2p_self]

/- List bookkeeping for the C7 chain invariant. -/

theorem idxOf_append_of_not_mem (xs ys : List String) (k : String) (h : k ∉ xs) :
    idxOf (xs ++ ys) k = xs.length + idxOf ys k := by
  induction xs with
  | nil => simp [idxOf]
  | cons x xs ih =>
    have hx : ¬(x = k) := fun hc => h (by simp [hc])
    simp only [List.cons_append, idxOf, if_neg hx, List.length_cons, List.append_eq]
    rw [ih (fun hm => h (List.mem_cons_of_mem _ hm))]
    omega

theorem idxOf_append_of_mem (xs ys : List String) (k : String) (h : k ∈ xs) :
    idxOf (xs ++ ys) k = idxOf xs k := by
  induction xs with
  | nil => exact absurd h (List.not_mem_nil k)
  | cons x xs ih =>
    by_cases hx : x = k
    · simp [idxOf, hx]
    · have hm : k ∈ xs := by
        rcases List.mem_cons.mp h with hc | hm
        · exact absurd hc.symm hx
        · exact hm
      simp only [List.cons_append, idxOf, if_neg hx, List.append_eq]
      rw [ih hm]

theorem idxOf_lt_length_of_mem (l : List String) (k : String) (h : k ∈ l) :
    idxOf l k < l.length := by
  induction l with
  | nil => exact absurd h (List.not_mem_nil k)
  | cons x xs ih =>
    by_cases hx : x = k
    · simp [idxOf, hx]
    · have hm : k ∈ xs := by
        rcases List.mem_cons.mp h with hc | hm
        · exact absurd hc.symm hx
        · exact hm
      have := ih hm
      simp only [idxOf, if_neg hx, List.length_cons]
      omega

theorem getD_append_cons (xs : List String) (a : String) (ys : List String)
    (d : String) : (xs ++ a :: ys).getD xs.length d = a := by
  induction xs with
  | nil => simp
  | cons x xs ih => simpa using ih

theorem insertIdx_append_of_le {α : Type} (xs ys : List α) (a : α) (n : ℕ)
    (h : n ≤ xs.length) :
    (xs ++ ys).insertIdx n a = xs.insertIdx n a ++ ys := by
  induction xs generalizing n with
  | nil =>
    have hn : n = 0 := Nat.le_zero.mp (by simpa using h)
    subst hn
    simp
  | cons x xs ih =>
    cases n with
    | zero => simp
    | succ n =>
      simp only [List.cons_append, List.insertIdx_succ_cons]
      rw [ih n (by simpa using h)]

theorem insertIdx_append_add {α : Type} (xs ys : List α) (a : α) (n : ℕ) :
    (xs ++ ys).insertIdx (xs.length + n) a = xs ++ ys.insertIdx n a := by
  induction xs with
  | nil => simp
  | cons x xs ih =>
    have hlen : (x :: xs).length + n = (xs.length + n) + 1 := by
      simp
      omega
    rw [hlen]
    simp only [List.cons_append, List.insertIdx_succ_cons]
    rw [ih]

theorem nodup_insertIdx {α : Type} (l : List α) (a : α) (n : ℕ) (h : n ≤ l.length)
    (hnd : l.Nodup) (ha : a ∉ l) : (l.insertIdx n a).Nodup :=
  (List.perm_insertIdx a l h).nodup_iff.mpr (List.nodup_cons.mpr ⟨ha, hnd⟩)

/-- Membership in the middle of the chain: the anchors strictly between the two
trailing-edge ends (the leading edge and every inserted anchor). -/
def inMid (pre post : List String) (a : String) : Prop :=
  a ∈ pre ∨ a = keyLE ∨ a ∈ post

/-- The shape maintained by `__init__`, `add_anchor_point` (with the insertion
patterns that keep the per-segment count honest) and `add_free_point`: the chain is
`te_1 :: pre ++ le :: post ++ [te_2]` with at most one anchor after the leading
edge, the segment-order table holds `4 + free` for the two segments that end at a
G2-less anchor (`le`'s successor when `post` is empty, and the `post` anchor), and
`5 + free` for every other mid-chain anchor, every mid-chain anchor owns G1-plus,
G2-plus and G2-minus support points, and `te_2` owns no G2-minus point. -/
structure GoodShape (st : AirState) (pre post : List String) : Prop where
  horder : st.order = keyTE1 :: pre ++ keyLE :: post ++ [keyTE2]
  hnd : st.order.Nodup
  hpost : post.length ≤ 1
  hNte1 : alook st.N keyTE1 = some (4 + fcount st keyTE1)
  hNpre : ∀ a ∈ pre, alook st.N a = some (5 + fcount st a)
  hNle : alook st.N keyLE = some ((if post.isEmpty then 4 else 5) + fcount st keyLE)
  hNpost : ∀ a ∈ post, alook st.N a = some (4 + fcount st a)
  hNout : ∀ k, k ∉ st.order → alook st.N k = none
  hg1p : ∀ a, inMid pre post a → (alook st.g1_plus a).isSome = true
  hg2p : ∀ a, inMid pre post a → (alook st.g2_plus a).isSome = true
  hg2m : ∀ a, inMid pre post a → (alook st.g2_minus a).isSome = true
  hg2mte2 : alook st.g2_minus keyTE2 = none
  hFout : ∀ k, k ∉ st.order → alook st.free_points k = none

theorem goodShape_init (rf : RealFuns) (b : BaseAirfoilParams) :
    GoodShape (initCoreState rf b) [] [] := by
  refine ⟨rfl, ?_, by decide, ?_, ?_, ?_, ?_, ?_, ?_, ?_, ?_, ?_, ?_⟩
  · have hord : (initCoreState rf b).order = [keyTE1, keyLE, keyTE2] := rfl
    rw [hord]
    decide
  · simp [initCoreState, alook, fcount, freeOf, keyTE1, keyLE]
  · intro a ha
    exact absurd ha (List.not_mem_nil a)
  · simp [initCoreState, alook, fcount, freeOf, keyTE1, keyLE]
  · intro a ha
    exact absurd ha (List.not_mem_nil a)
  · intro k hk
    have hord : (initCoreState rf b).order = [keyTE1, keyLE, keyTE2] := rfl
    rw [hord] at hk
    simp only [List.mem_cons, List.not_mem_nil, or_false, not_or] at hk
    obtain ⟨h1, h2, h3⟩ := hk
    have h1s : ¬(keyTE1 = k) := fun hc => h1 hc.symm
    have h2s : ¬(keyLE = k) := fun hc => h2 hc.symm
    show alook [(keyTE1, 4), (keyLE, 4)] k = none
    simp [alook, h1s, h2s]
  · intro a ha
    rcases ha with h | h | h
    · exact absurd h (List.not_mem_nil a)
    · subst h
      simp [initCoreState, initG1Plus, alook, keyTE1, keyLE]
    · exact absurd h (List.not_mem_nil a)
  · intro a ha
    rcases ha with h | h | h
    · exact absurd h (List.not_mem_nil a)
    · subst h
      simp [initCoreState, alook]
    · exact absurd h (List.not_mem_nil a)
  · intro a ha
    rcases ha with h | h | h
    · exact absurd h (List.not_mem_nil a)
    · subst h
      simp [initCoreState, alook]
    · exact absurd h (List.not_mem_nil a)
  · simp [initCoreState, alook, keyLE, keyTE2]
  · intro k hk
    rfl

theorem goodShape_freePt (fp : FreePoint) (st : AirState) (pre post : List String)
    (hg : GoodShape st pre post)
    (hkey : (alook st.N fp.previous_anchor_point).isSome = true) :
    GoodShape (addFreePoint fp st) pre post := by
  have hmem : fp.previous_anchor_point ∈ st.order := by
    by_contra hout
    rw [hg.hNout fp.previous_anchor_point hout] at hkey
    simp at hkey
  have hordr : (addFreePoint fp st).order = st.order := rfl
  have hNr : (addFreePoint fp st).N = nIncr st.N fp.previous_anchor_point := rfl
  have hFr : (addFreePoint fp st).free_points =
      aupd st.free_points fp.previous_anchor_point
        (((alook st.free_points fp.previous_anchor_point).getD []) ++ [fpXY fp]) := rfl
  refine ⟨?_, ?_, hg.hpost, ?_, ?_, ?_, ?_, ?_, ?_, ?_, ?_, ?_, ?_⟩
  · rw [hordr]
    exact hg.horder
  · rw [hordr]
    exact hg.hnd
  · rw [hNr, alook_nIncr, fcount_addFreePoint]
    by_cases h : keyTE1 = fp.previous_anchor_point
    · rw [if_pos h, if_pos h, hg.hNte1]
      simp [Nat.add_assoc]
    · rw [if_neg h, if_neg h]
      exact hg.hNte1
  · intro a ha
    rw [hNr, alook_nIncr, fcount_addFreePoint]
    by_cases h : a = fp.previous_anchor_point
    · rw [if_pos h, if_pos h, hg.hNpre a ha]
      simp [Nat.add_assoc]
    · rw [if_neg h, if_neg h]
      exact hg.hNpre a ha
  · rw [hNr, alook_nIncr, fcount_addFreePoint]
    by_cases h : keyLE = fp.previous_anchor_point
    · rw [if_pos h, if_pos h, hg.hNle]
      simp [Nat.add_assoc]
    · rw [if_neg h, if_neg h]
      exact hg.hNle
  · intro a ha
    rw [hNr, alook_nIncr, fcount_addFreePoint]
    by_cases h : a = fp.previous_anchor_point
    · rw [if_pos h, if_pos h, hg.hNpost a ha]
      simp [Nat.add_assoc]
    · rw [if_neg h, if_neg h]
      exact hg.hNpost a ha
  · intro k hk
    rw [hordr] at hk
    have hkp : ¬(k = fp.previous_anchor_point) := fun hc => hk (hc ▸ hmem)
    rw [hNr, alook_nIncr, if_neg hkp]
    exact hg.hNout k hk
  · intro a ha
    rw [addFreePoint_g1_plus]
    exact hg.hg1p a ha
  · intro a ha
    rw [addFreePoint_g2_plus]
    exact hg.hg2p a ha
  · intro a ha
    rw [addFreePoint_g2_minus]
    exact hg.hg2m a ha
  · rw [addFreePoint_g2_minus]
    exact hg.hg2mte2
  · intro k hk
    rw [hordr] at hk
    have hkp : k ≠ fp.previous_anchor_point := fun hc => hk (hc ▸ hmem)
    rw [hFr, alook_aupd_ne _ _ _ _ hkp]
    exact hg.hFout k hk

theorem goodShape_anchorBefore (rf : RealFuns) (ap : AnchorPoint) (st : AirState)
    (pre post : List String) (hg : GoodShape st pre post)
    (hfresh : ap.name ∉ st.order)
    (hprev : idxOf st.order ap.previous_anchor_point < idxOf st.order keyLE) :
    GoodShape (addAnchorPoint rf ap st)
      (pre.insertIdx (idxOf st.order ap.previous_anchor_point) ap.name) post := by
  have hmemO : ∀ x, x ∈ st.order ↔
      (x = keyTE1 ∨ x ∈ pre ∨ x = keyLE ∨ x ∈ post ∨ x = keyTE2) := by
    intro x
    rw [hg.horder]
    simp
  have hordeq : st.order = (keyTE1 :: pre) ++ (keyLE :: (post ++ [keyTE2])) := by
    rw [hg.horder]
    simp
  have hsplit : ((keyTE1 :: pre) ++ (keyLE :: (post ++ [keyTE2]))).Nodup := by
    have h0 := hg.hnd
    rw [hordeq] at h0
    exact h0
  have hdisj := (List.nodup_append.mp hsplit).2.2
  have hlepre : keyLE ∉ keyTE1 :: pre := fun hm => hdisj hm (List.mem_cons_self _ _)
  have hleidx : idxOf st.order keyLE = pre.length + 1 := by
    rw [hordeq, idxOf_append_of_not_mem _ _ _ hlepre]
    simp [idxOf]
  have hj : idxOf st.order ap.previous_anchor_point ≤ pre.length := by omega
  have hnle : ap.name ≠ keyLE :=
    fun hc => hfresh (hc ▸ (hmemO keyLE).mpr (Or.inr (Or.inr (Or.inl rfl))))
  have hnte1 : ap.name ≠ keyTE1 := fun hc => hfresh (hc ▸ (hmemO keyTE1).mpr (Or.inl rfl))
  have hnte2 : ap.name ≠ keyTE2 :=
    fun hc => hfresh (hc ▸ (hmemO keyTE2).mpr (Or.inr (Or.inr (Or.inr (Or.inr rfl)))))
  have hnpre : ∀ a ∈ pre, a ≠ ap.name :=
    fun a ha hc => hfresh (hc ▸ (hmemO a).mpr (Or.inr (Or.inl ha)))
  have hnpost : ∀ a ∈ post, a ≠ ap.name :=
    fun a ha hc => hfresh (hc ▸ (hmemO a).mpr (Or.inr (Or.inr (Or.inr (Or.inl ha)))))
  have horder2 : insertedOrder ap st =
      (keyTE1 :: pre.insertIdx (idxOf st.order ap.previous_anchor_point) ap.name) ++
        (keyLE :: (post ++ [keyTE2])) := by
    obtain ⟨j, hjeq, hjle⟩ :
        ∃ j, idxOf st.order ap.previous_anchor_point = j ∧ j ≤ pre.length :=
      ⟨_, rfl, hj⟩
    show List.insertIdx (idxOf st.order ap.previous_anchor_point + 1) ap.name st.order = _
    rw [hjeq, hordeq]
    have h1 : (keyTE1 :: pre) ++ (keyLE :: (post ++ [keyTE2])) =
        keyTE1 :: (pre ++ (keyLE :: (post ++ [keyTE2]))) := by simp
    rw [h1, List.insertIdx_succ_cons, insertIdx_append_of_le _ _ _ _ hjle]
    simp
  have hli : (pre.insertIdx (idxOf st.order ap.previous_anchor_point) ap.name).length =
      pre.length + 1 := List.length_insertIdx _ _ hj
  have hname_mem : ap.name ∈
      keyTE1 :: pre.insertIdx (idxOf st.order ap.previous_anchor_point) ap.name :=
    List.mem_cons_of_mem _ ((List.mem_insertIdx hj).mpr (Or.inl rfl))
  have hle_notin : keyLE ∉
      keyTE1 :: pre.insertIdx (idxOf st.order ap.previous_anchor_point) ap.name := by
    intro hm
    rcases List.mem_cons.mp hm with hc | hm2
    · exact (by decide : ¬(keyLE = keyTE1)) hc
    · rcases (List.mem_insertIdx hj).mp hm2 with hc | hm3
      · exact hnle hc.symm
      · exact hlepre (List.mem_cons_of_mem _ hm3)
  have hidxle2 : idxOf (insertedOrder ap st) keyLE = pre.length + 2 := by
    rw [horder2, idxOf_append_of_not_mem _ _ _ hle_notin]
    simp [idxOf, hli]
  have hidxname2 : idxOf (insertedOrder ap st) ap.name < pre.length + 2 := by
    rw [horder2, idxOf_append_of_mem _ _ _ hname_mem]
    have h2 := idxOf_lt_length_of_mem _ _ hname_mem
    rw [List.length_cons, hli] at h2
    omega
  have hbranch : ¬(idxOf (insertedOrder ap st) keyLE <
      idxOf (insertedOrder ap st) ap.name) := by omega
  have hN2 : (addAnchorPoint rf ap st).N = aupd st.N ap.name 5 := by
    rw [addAnchorPoint_N, if_neg hbranch]
  have hfc : ∀ a, fcount (addAnchorPoint rf ap st) a = fcount st a := by
    intro a
    simp [fcount, freeOf]
  have hfc0 : fcount st ap.name = 0 := by
    simp [fcount, freeOf, hg.hFout ap.name hfresh]
  have hposle : idxOf st.order ap.previous_anchor_point + 1 ≤ st.order.length := by
    have := idxOf_lt_length_of_mem st.order keyLE
      ((hmemO keyLE).mpr (Or.inr (Or.inr (Or.inl rfl))))
    omega
  have hmemIns : ∀ x, x ∈ insertedOrder ap st ↔ x = ap.name ∨ x ∈ st.order := by
    intro x
    exact List.mem_insertIdx hposle
  refine ⟨?_, ?_, hg.hpost, ?_, ?_, ?_, ?_, ?_, ?_, ?_, ?_, ?_, ?_⟩
  · rw [addAnchorPoint_order, horder2]
    simp
  · rw [addAnchorPoint_order]
    exact nodup_insertIdx st.order ap.name _ hposle hg.hnd hfresh
  · rw [hN2, alook_aupd_ne _ _ _ _ (fun hc => hnte1 hc.symm), hfc]
    exact hg.hNte1
  · intro a ha
    rcases (List.mem_insertIdx hj).mp ha with hc | hm
    · subst hc
      rw [hN2, alook_aupd_self, hfc, hfc0]
    · rw [hN2, alook_aupd_ne _ _ _ _ (hnpre a hm), hfc]
      exact hg.hNpre a hm
  · rw [hN2, alook_aupd_ne _ _ _ _ (fun hc => hnle hc.symm), hfc]
    exact hg.hNle
  · intro a ha
    rw [hN2, alook_aupd_ne _ _ _ _ (hnpost a ha), hfc]
    exact hg.hNpost a ha
  · intro k hk
    rw [addAnchorPoint_order] at hk
    have hkname : k ≠ ap.name := fun hc => hk ((hmemIns k).mpr (Or.inl hc))
    have hkold : k ∉ st.order := fun hm => hk ((hmemIns k).mpr (Or.inr hm))
    rw [hN2, alook_aupd_ne _ _ _ _ hkname]
    exact hg.hNout k hkold
  · intro a ha
    rcases ha with hm | hc | hm
    · rcases (List.mem_insertIdx hj).mp hm with hc | hm2
      · subst hc
        exact addAnchorPoint_g1p_self rf ap st
      · rw [addAnchorPoint_g1p_ne rf ap st a (hnpre a hm2)]
        exact hg.hg1p a (Or.inl hm2)
    · subst hc
      rw [addAnchorPoint_g1p_ne rf ap st keyLE (fun hc2 => hnle hc2.symm)]
      exact hg.hg1p keyLE (Or.inr (Or.inl rfl))
    · rw [addAnchorPoint_g1p_ne rf ap st a (hnpost a hm)]
      exact hg.hg1p a (Or.inr (Or.inr hm))
  · intro a ha
    rcases ha with hm | hc | hm
    · rcases (List.mem_insertIdx hj).mp hm with hc | hm2
      · subst hc
        exact addAnchorPoint_g2p_self rf ap st
      · rw [addAnchorPoint_g2p_ne rf ap st a (hnpre a hm2)]
        exact hg.hg2p a (Or.inl hm2)
    · subst hc
      rw [addAnchorPoint_g2p_ne rf ap st keyLE (fun hc2 => hnle hc2.symm)]
      exact hg.hg2p keyLE (Or.inr (Or.inl rfl))
    · rw [addAnchorPoint_g2p_ne rf ap st a (hnpost a hm)]
      exact hg.hg2p a (Or.inr (Or.inr hm))
  · intro a ha
    rcases ha with hm | hc | hm
    · rcases (List.mem_insertIdx hj).mp hm with hc | hm2
      · subst hc
        exact addAnchorPoint_g2m_self rf ap st
      · rw [addAnchorPoint_g2m_ne rf ap st a (hnpre a hm2)]
        exact hg.hg2m a (Or.inl hm2)
    · subst hc
      rw [addAnchorPoint_g2m_ne rf ap st keyLE (fun hc2 => hnle hc2.symm)]
      exact hg.hg2m keyLE (Or.inr (Or.inl rfl))
    · rw [addAnchorPoint_g2m_ne rf ap st a (hnpost a hm)]
      exact hg.hg2m a (Or.inr (Or.inr hm))
  · rw [addAnchorPoint_g2m_ne rf ap st keyTE2 (fun hc => hnte2 hc.symm)]
    exact hg.hg2mte2
  · intro k hk
    rw [addAnchorPoint_order] at hk
    have hkold : k ∉ st.order := fun hm => hk ((hmemIns k).mpr (Or.inr hm))
    rw [addAnchorPoint_free_points]
    exact hg.hFout k hkold

theorem goodShape_anchorAfter (rf : RealFuns) (ap : AnchorPoint) (st : AirState)
    (pre post : List String) (hg : GoodShape st pre post)
    (hfresh : ap.name ∉ st.order)
    (hprevle : ap.previous_anchor_point = keyLE)
    (hpostempty : idxOf st.order keyLE + 2 = st.order.length)
    (hfle : fcount st keyLE = 0) :
    GoodShape (addAnchorPoint rf ap st) pre [ap.name] := by
  have hmemO : ∀ x, x ∈ st.order ↔
      (x = keyTE1 ∨ x ∈ pre ∨ x = keyLE ∨ x ∈ post ∨ x = keyTE2) := by
    intro x
    rw [hg.horder]
    simp
  have hordeq : st.order = (keyTE1 :: pre) ++ (keyLE :: (post ++ [keyTE2])) := by
    rw [hg.horder]
    simp
  have hsplit : ((keyTE1 :: pre) ++ (keyLE :: (post ++ [keyTE2]))).Nodup := by
    have h0 := hg.hnd
    rw [hordeq] at h0
    exact h0
  have hdisj := (List.nodup_append.mp hsplit).2.2
  have hlepre : keyLE ∉ keyTE1 :: pre := fun hm => hdisj hm (List.mem_cons_self _ _)
  have hleidx : idxOf st.order keyLE = pre.length + 1 := by
    rw [hordeq, idxOf_append_of_not_mem _ _ _ hlepre]
    simp [idxOf]
  have hlenO : st.order.length = pre.length + post.length + 3 := by
    rw [hordeq]
    simp
    omega
  have hpost0 : post = [] := by
    have hl : post.length = 0 := by omega
    exact List.length_eq_zero.mp hl
  subst hpost0
  have hordeq0 : st.order = (keyTE1 :: pre) ++ (keyLE :: [keyTE2]) := by
    rw [hg.horder]
    simp
  have hnle : ap.name ≠ keyLE :=
    fun hc => hfresh (hc ▸ (hmemO keyLE).mpr (Or.inr (Or.inr (Or.inl rfl))))
  have hnte1 : ap.name ≠ keyTE1 := fun hc => hfresh (hc ▸ (hmemO keyTE1).mpr (Or.inl rfl))
  have hnte2 : ap.name ≠ keyTE2 :=
    fun hc => hfresh (hc ▸ (hmemO keyTE2).mpr (Or.inr (Or.inr (Or.inr (Or.inr rfl)))))
  have hnpre : ∀ a ∈ pre, a ≠ ap.name :=
    fun a ha hc => hfresh (hc ▸ (hmemO a).mpr (Or.inr (Or.inl ha)))
  have hprele : ∀ a ∈ pre, a ≠ keyLE :=
    fun a ha hc => hlepre (hc ▸ List.mem_cons_of_mem _ ha)
  have horder2 : insertedOrder ap st =
      (keyTE1 :: pre) ++ (keyLE :: ap.name :: [keyTE2]) := by
    show List.insertIdx (idxOf st.order ap.previous_anchor_point + 1) ap.name st.order = _
    rw [hprevle, hleidx, hordeq0]
    have hidx : pre.length + 1 + 1 = (keyTE1 :: pre).length + 1 := by simp
    rw [hidx, insertIdx_append_add]
    rfl
  have horder2b : insertedOrder ap st =
      ((keyTE1 :: pre) ++ [keyLE]) ++ (ap.name :: [keyTE2]) := by
    rw [horder2]
    simp
  have hnm_notin : ap.name ∉ (keyTE1 :: pre) ++ [keyLE] := by
    intro hm
    rcases List.mem_append.mp hm with h1 | h2
    · rcases List.mem_cons.mp h1 with hc | hm2
      · exact hnte1 hc
      · exact hnpre _ hm2 rfl
    · exact hnle (List.mem_singleton.mp h2)
  have hidxle2 : idxOf (insertedOrder ap st) keyLE = pre.length + 1 := by
    rw [horder2, idxOf_append_of_not_mem _ _ _ hlepre]
    simp [idxOf]
  have hidxname2 : idxOf (insertedOrder ap st) ap.name = pre.length + 2 := by
    rw [horder2b, idxOf_append_of_not_mem _ _ _ hnm_notin]
    simp [idxOf]
  have hbranch : idxOf (insertedOrder ap st) keyLE <
      idxOf (insertedOrder ap st) ap.name := by omega
  have hlen2 : (insertedOrder ap st).length = pre.length + 4 := by
    rw [horder2]
    simp
  have hpen : penultName (insertedOrder ap st) = ap.name := by
    show (insertedOrder ap st).getD ((insertedOrder ap st).length - 2) "" = ap.name
    rw [hlen2, horder2b]
    have hidx : pre.length + 4 - 2 = ((keyTE1 :: pre) ++ [keyLE]).length := by
      simp
    rw [hidx, getD_append_cons]
  have hN2 : (addAnchorPoint rf ap st).N =
      aupd (aupd st.N keyLE 5) ap.name 4 := by
    rw [addAnchorPoint_N, if_pos hbranch, hpen]
  have hfc : ∀ a, fcount (addAnchorPoint rf ap st) a = fcount st a := by
    intro a
    simp [fcount, freeOf]
  have hfc0 : fcount st ap.name = 0 := by
    simp [fcount, freeOf, hg.hFout ap.name hfresh]
  have hposle : idxOf st.order ap.previous_anchor_point + 1 ≤ st.order.length := by
    rw [hprevle]
    omega
  have hmemIns : ∀ x, x ∈ insertedOrder ap st ↔ x = ap.name ∨ x ∈ st.order := by
    intro x
    exact List.mem_insertIdx hposle
  refine ⟨?_, ?_, by simp, ?_, ?_, ?_, ?_, ?_, ?_, ?_, ?_, ?_, ?_⟩
  · rw [addAnchorPoint_order, horder2]
    simp
  · rw [addAnchorPoint_order]
    exact nodup_insertIdx st.order ap.name _ hposle hg.hnd hfresh
  · rw [hN2, alook_aupd_ne _ _ _ _ (fun hc => hnte1 hc.symm),
      alook_aupd_ne _ _ _ _ (by decide : keyTE1 ≠ keyLE), hfc]
    exact hg.hNte1
  · intro a ha
    rw [hN2, alook_aupd_ne _ _ _ _ (hnpre a ha),
      alook_aupd_ne _ _ _ _ (hprele a ha), hfc]
    exact hg.hNpre a ha
  · rw [hN2, alook_aupd_ne _ _ _ _ (fun hc => hnle hc.symm), alook_aupd_self, hfc]
    simp [hfle]
  · intro a ha
    have hc : a = ap.name := List.mem_singleton.mp ha
    subst hc
    rw [hN2, alook_aupd_self, hfc, hfc0]
  · intro k hk
    rw [addAnchorPoint_order] at hk
    have hkname : k ≠ ap.name := fun hc => hk ((hmemIns k).mpr (Or.inl hc))
    have hkold : k ∉ st.order := fun hm => hk ((hmemIns k).mpr (Or.inr hm))
    have hkle : k ≠ keyLE :=
      fun hc => hkold (hc ▸ (hmemO keyLE).mpr (Or.inr (Or.inr (Or.inl rfl))))
    rw [hN2, alook_aupd_ne _ _ _ _ hkname, alook_aupd_ne _ _ _ _ hkle]
    exact hg.hNout k hkold
  · intro a ha
    rcases ha with hm | hc | hm
    · rw [addAnchorPoint_g1p_ne rf ap st a (hnpre a hm)]
      exact hg.hg1p a (Or.inl hm)
    · subst hc
      rw [addAnchorPoint_g1p_ne rf ap st keyLE (fun hc2 => hnle hc2.symm)]
      exact hg.hg1p keyLE (Or.inr (Or.inl rfl))
    · have hc : a = ap.name := List.mem_singleton.mp hm
      subst hc
      exact addAnchorPoint_g1p_self rf ap st
  · intro a ha
    rcases ha with hm | hc | hm
    · rw [addAnchorPoint_g2p_ne rf ap st a (hnpre a hm)]
      exact hg.hg2p a (Or.inl hm)
    · subst hc
      rw [addAnchorPoint_g2p_ne rf ap st keyLE (fun hc2 => hnle hc2.symm)]
      exact hg.hg2p keyLE (Or.inr (Or.inl rfl))
    · have hc : a = ap.name := List.mem_singleton.mp hm
      subst hc
      exact addAnchorPoint_g2p_self rf ap st
  · intro a ha
    rcases ha with hm | hc | hm
    · rw [addAnchorPoint_g2m_ne rf ap st a (hnpre a hm)]
      exact hg.hg2m a (Or.inl hm)
    · subst hc
      rw [addAnchorPoint_g2m_ne rf ap st keyLE (fun hc2 => hnle hc2.symm)]
      exact hg.hg2m keyLE (Or.inr (Or.inl rfl))
    · have hc : a = ap.name := List.mem_singleton.mp hm
      subst hc
      exact addAnchorPoint_g2m_self rf ap st
  · rw [addAnchorPoint_g2m_ne rf ap st keyTE2 (fun hc => hnte2 hc.symm)]
    exact hg.hg2mte2
  · intro k hk
    rw [addAnchorPoint_order] at hk
    have hkold : k ∉ st.order := fun hm => hk ((hmemIns k).mpr (Or.inr hm))
    rw [addAnchorPoint_free_points]
    exact hg.hFout k hkold

theorem segOK_first (st : AirState) (a b : String)
    (hN : alook st.N a = some (4 + fcount st a))
    (hb : (alook st.g2_minus b).isSome = true) : segOK st true a b = true := by
  unfold segOK
  rw [hN]
  simp only []
  rw [blockTail_true_len st a, blockHead_len_some st b hb]
  simp only [beq_iff_eq]
  omega

theorem segOK_mid (st : AirState) (a b : String)
    (hN : alook st.N a = some (5 + fcount st a))
    (h1 : (alook st.g1_plus a).isSome = true)
    (h2 : (alook st.g2_plus a).isSome = true)
    (hb : (alook st.g2_minus b).isSome = true) : segOK st false a b = true := by
  unfold segOK
  rw [hN]
  simp only []
  rw [blockTail_false_len st a h1 h2, blockHead_len_some st b hb]
  simp only [beq_iff_eq]
  omega

theorem segOK_last (st : AirState) (a : String)
    (hN : alook st.N a = some (4 + fcount st a))
    (h1 : (alook st.g1_plus a).isSome = true)
    (h2 : (alook st.g2_plus a).isSome = true)
    (hte2 : alook st.g2_minus keyTE2 = none) : segOK st false a keyTE2 = true := by
  unfold segOK
  rw [hN]
  simp only []
  rw [blockTail_false_len st a h1 h2, blockHead_len_none st keyTE2 hte2]
  simp only [beq_iff_eq]
  omega

theorem chainOk_pre_le (st : AirState) (xs rest : List String)
    (hN : ∀ a ∈ xs, alook st.N a = some (5 + fcount st a))
    (h1 : ∀ a ∈ xs, (alook st.g1_plus a).isSome = true)
    (h2 : ∀ a ∈ xs, (alook st.g2_plus a).isSome = true)
    (h3 : ∀ a ∈ xs, (alook st.g2_minus a).isSome = true)
    (hle_g2m : (alook st.g2_minus keyLE).isSome = true)
    (htail : chainOk st false (keyLE :: rest) = true) :
    chainOk st false (xs ++ (keyLE :: rest)) = true := by
  induction xs with
  | nil => exact htail
  | cons a xs ih =>
    have hih := ih (fun x hx => hN x (List.mem_cons_of_mem _ hx))
      (fun x hx => h1 x (List.mem_cons_of_mem _ hx))
      (fun x hx => h2 x (List.mem_cons_of_mem _ hx))
      (fun x hx => h3 x (List.mem_cons_of_mem _ hx))
    have haN := hN a (List.mem_cons_self _ _)
    have ha1 := h1 a (List.mem_cons_self _ _)
    have ha2 := h2 a (List.mem_cons_self _ _)
    cases xs with
    | nil =>
      show (segOK st false a keyLE && chainOk st false (keyLE :: rest)) = true
      rw [segOK_mid st a keyLE haN ha1 ha2 hle_g2m, htail]
      rfl
    | cons a2 xs2 =>
      have ha3 := h3 a2 (List.mem_cons_of_mem _ (List.mem_cons_self _ _))
      show (segOK st false a a2 &&
        chainOk st false ((a2 :: xs2) ++ (keyLE :: rest))) = true
      rw [segOK_mid st a a2 haN ha1 ha2 ha3, hih]
      rfl

theorem chainOk_top (st : AirState) (pre tail2 : List String)
    (hN : ∀ a ∈ pre, alook st.N a = some (5 + fcount st a))
    (h1 : ∀ a ∈ pre, (alook st.g1_plus a).isSome = true)
    (h2 : ∀ a ∈ pre, (alook st.g2_plus a).isSome = true)
    (h3 : ∀ a ∈ pre, (alook st.g2_minus a).isSome = true)
    (hNte1 : alook st.N keyTE1 = some (4 + fcount st keyTE1))
    (hle_g2m : (alook st.g2_minus keyLE).isSome = true)
    (htail : chainOk st false (keyLE :: tail2) = true) :
    chainOk st true (keyTE1 :: (pre ++ (keyLE :: tail2))) = true := by
  cases pre with
  | nil =>
    show (segOK st true keyTE1 keyLE && chainOk st false (keyLE :: tail2)) = true
    rw [segOK_first st keyTE1 keyLE hNte1 hle_g2m, htail]
    rfl
  | cons a pre2 =>
    have ha3 := h3 a (List.mem_cons_self _ _)
    show (segOK st true keyTE1 a &&
      chainOk st false ((a :: pre2) ++ (keyLE :: tail2))) = true
    rw [segOK_first st keyTE1 a hNte1 ha3,
      chainOk_pre_le st (a :: pre2) tail2 hN h1 h2 h3 hle_g2m htail]
    rfl

theorem segInv_of_goodShape (st : AirState) (pre post : List String)
    (hg : GoodShape st pre post) : SegInvB st = true := by
  have hNpre := fun a ha => hg.hNpre a ha
  have hp1 : ∀ a ∈ pre, (alook st.g1_plus a).isSome = true :=
    fun a ha => hg.hg1p a (Or.inl ha)
  have hp2 : ∀ a ∈ pre, (alook st.g2_plus a).isSome = true :=
    fun a ha => hg.hg2p a (Or.inl ha)
  have hp3 : ∀ a ∈ pre, (alook st.g2_minus a).isSome = true :=
    fun a ha => hg.hg2m a (Or.inl ha)
  have hleg1p := hg.hg1p keyLE (Or.inr (Or.inl rfl))
  have hleg2p := hg.hg2p keyLE (Or.inr (Or.inl rfl))
  have hleg2m := hg.hg2m keyLE (Or.inr (Or.inl rfl))
  unfold SegInvB
  rw [hg.horder]
  rcases hpo : post with _ | ⟨p, prest⟩
  · have hNle : alook st.N keyLE = some (4 + fcount st keyLE) := by
      have h0 := hg.hNle
      rw [hpo] at h0
      simpa using h0
    have htail : chainOk st false (keyLE :: [keyTE2]) = true := by
      show (segOK st false keyLE keyTE2 && chainOk st false [keyTE2]) = true
      rw [segOK_last st keyLE hNle hleg1p hleg2p hg.hg2mte2]
      rfl
    have hmain := chainOk_top st pre [keyTE2] hNpre hp1 hp2 hp3 hg.hNte1 hleg2m htail
    simpa using hmain
  · have hprest : prest = [] := by
      have h0 := hg.hpost
      rw [hpo] at h0
      simp at h0
      exact h0
    subst hprest
    have hpmem : p ∈ post := by rw [hpo]; exact List.mem_cons_self _ _
    have hNle : alook st.N keyLE = some (5 + fcount st keyLE) := by
      have h0 := hg.hNle
      rw [hpo] at h0
      simpa using h0
    have hNp := hg.hNpost p hpmem
    have hpg1p := hg.hg1p p (Or.inr (Or.inr hpmem))
    have hpg2p := hg.hg2p p (Or.inr (Or.inr hpmem))
    have hpg2m := hg.hg2m p (Or.inr (Or.inr hpmem))
    have htail : chainOk st false (keyLE :: (p :: [keyTE2])) = true := by
      show (segOK st false keyLE p &&
        (segOK st false p keyTE2 && chainOk st false [keyTE2])) = true
      rw [segOK_mid st keyLE p hNle hleg1p hleg2p hpg2m,
        segOK_last st p hNp hpg1p hpg2p hg.hg2mte2]
      rfl
    have hmain := chainOk_top st pre (p :: [keyTE2]) hNpre hp1 hp2 hp3 hg.hNte1
      hleg2m htail
    simpa using hmain

theorem freeOf_addFreePoint (fp : FreePoint) (st : AirState) (b : String) :
    freeOf (addFreePoint fp st) b =
      if b = fp.previous_anchor_point then freeOf st b ++ [fpXY fp]
      else freeOf st b := by
  by_cases h : b = fp.previous_anchor_point
  · subst h
    simp [freeOf, addFreePoint, alook_aupd_self]
  · simp [freeOf, addFreePoint, alook_aupd_ne _ _ _ _ h, h]

theorem blockTail_len_addFreePoint (fp : FreePoint) (st : AirState) (first : Bool)
    (b : String) :
    (blockTail (addFreePoint fp st) first b).length =
      (blockTail st first b).length +
        (if b = fp.previous_anchor_point then 1 else 0) := by
  have hbt : blockTail (addFreePoint fp st) first b =
      (if first then [aptv st b, g1pv st b]
       else [aptv st b] ++ optP (alook st.g1_plus b) ++ optP (alook st.g2_plus b)) ++
        freeOf (addFreePoint fp st) b := rfl
  have hbt0 : blockTail st first b =
      (if first then [aptv st b, g1pv st b]
       else [aptv st b] ++ optP (alook st.g1_plus b) ++ optP (alook st.g2_plus b)) ++
        freeOf st b := rfl
  rw [hbt, hbt0, List.length_append, List.length_append, freeOf_addFreePoint]
  by_cases h : b = fp.previous_anchor_point
  · rw [if_pos h, if_pos h]
    simp
    omega
  · rw [if_neg h, if_neg h]
    omega

theorem addFreePoints_cons (fp : FreePoint) (fps : List FreePoint) (st : AirState) :
    addFreePoints (fp :: fps) st = addFreePoints fps (addFreePoint fp st) := rfl

theorem freeGrowth (fps : List FreePoint) (st : AirState) (a : String) (first : Bool)
    (hall : ∀ fp ∈ fps, fp.previous_anchor_point = a) :
    (blockTail (addFreePoints fps st) first a).length =
      (blockTail st first a).length + fps.length ∧
    alook (addFreePoints fps st).N a = (alook st.N a).map (· + fps.length) := by
  induction fps generalizing st with
  | nil =>
    constructor
    · have h0 : blockTail (addFreePoints [] st) first a = blockTail st first a := rfl
      rw [h0]
      simp
    · have h0 : (addFreePoints [] st).N = st.N := rfl
      rw [h0]
      cases halook : alook st.N a <;> simp
  | cons fp fps ih =>
    have hprev : fp.previous_anchor_point = a := hall fp (List.mem_cons_self _ _)
    have hih := ih (addFreePoint fp st) (fun x hx => hall x (List.mem_cons_of_mem _ hx))
    rw [addFreePoints_cons]
    constructor
    · rw [hih.1, blockTail_len_addFreePoint, if_pos hprev.symm]
      simp
      omega
    · rw [hih.2]
      have hN : (addFreePoint fp st).N = nIncr st.N fp.previous_anchor_point := rfl
      rw [hN, alook_nIncr, if_pos hprev.symm]
      cases halook : alook st.N a
      · simp
      · simp
        omega

theorem orderControlPoints_blocks (st : AirState) :
    orderControlPoints st =
      match st.order with
      | [] => []
      | a :: rest =>
        blockTail st true a ++
          (rest.map (fun b => blockHeadPts st b ++ blockTail st false b)).flatten := by
  unfold orderControlPoints
  cases horder : st.order with
  | nil => rfl
  | cons a rest => simp [emitBlock_true_eq, emitBlock_false_eq]

/-- The airfoil states the embedding can exhibit through the code's own entry
points: the constructor's core state, `add_anchor_point` with a fresh name whose
predecessor sits before the leading edge, `add_anchor_point` with a fresh name
inserted directly after the leading edge while no other anchor (and no free point
on the leading-edge segment) sits there yet, and `add_free_point` aimed at a
segment that owns an order-table entry.  (Outside this family the code's own
bookkeeping breaks the claimed invariant: see the counterexample.) -/
inductive Reach (rf : RealFuns) : AirState → Prop where
  | init (b : BaseAirfoilParams) : Reach rf (initCoreState rf b)
  | anchorBefore (ap : AnchorPoint) (st : AirState) (h : Reach rf st)
      (hfresh : ap.name ∉ st.order)
      (hprev : idxOf st.order ap.previous_anchor_point < idxOf st.order keyLE) :
      Reach rf (addAnchorPoint rf ap st)
  | anchorAfter (ap : AnchorPoint) (st : AirState) (h : Reach rf st)
      (hfresh : ap.name ∉ st.order)
      (hprevle : ap.previous_anchor_point = keyLE)
      (hpostempty : idxOf st.order keyLE + 2 = st.order.length)
      (hfle : fcount st keyLE = 0) :
      Reach rf (addAnchorPoint rf ap st)
  | freePt (fp : FreePoint) (st : AirState) (h : Reach rf st)
      (hkey : (alook st.N fp.previous_anchor_point).isSome = true) :
      Reach rf (addFreePoint fp st)

theorem good_of_reach (rf : RealFuns) (st : AirState) (h : Reach rf st) :
    ∃ pre post, GoodShape st pre post := by
  induction h with
  | init b => exact ⟨[], [], goodShape_init rf b⟩
  | anchorBefore ap st h hfresh hprev ih =>
    obtain ⟨pre, post, hg⟩ := ih
    exact ⟨_, _, goodShape_anchorBefore rf ap st pre post hg hfresh hprev⟩
  | anchorAfter ap st h hfresh hprevle hpostempty hfle ih =>
    obtain ⟨pre, post, hg⟩ := ih
    exact ⟨_, _,
      goodShape_anchorAfter rf ap st pre post hg hfresh hprevle hpostempty hfle⟩
  | freePt fp st h hkey ih =>
    obtain ⟨pre, post, hg⟩ := ih
    exact ⟨_, _, goodShape_freePt fp st pre post hg hkey⟩

/-- C7 (amended): the claimed invariant — between each pair of consecutive anchors
of the chain, `order_control_points` emits exactly `N[earlier anchor] + 1` control
points (both anchors included), with `N` already counting the segment's free
points — does NOT hold for every state reachable by construction,
`add_anchor_point` and `add_free_point` (see the counterexample); it holds on the
sub-family `Reach`: the core construction state, before-leading-edge insertions, a
single directly-after-leading-edge insertion made while the `le` segment has no
other anchor and no free points, and free points aimed at segments owning an
order-table entry.  The second and third conjuncts hold unconditionally: the
control polygon is exactly the concatenation of the per-anchor blocks the
per-segment count measures, and adding `k` free points to one segment grows that
segment's block by exactly `k` points and its Bezier order entry by exactly `k`. -/
theorem C7_segment_invariant (rf : RealFuns) (st : AirState) (h : Reach rf st) :
    SegInvB st = true ∧
    (orderControlPoints st =
      match st.order with
      | [] => []
      | a :: rest =>
        blockTail st true a ++
          (rest.map (fun b => blockHeadPts st b ++ blockTail st false b)).flatten) ∧
    (∀ (fps : List FreePoint) (a : String) (first : Bool),
      (∀ fp ∈ fps, fp.previous_anchor_point = a) →
      (blockTail (addFreePoints fps st) first a).length =
        (blockTail st first a).length + fps.length ∧
      alook (addFreePoints fps st).N a = (alook st.N a).map (· + fps.length)) := by
  obtain ⟨pre, post, hg⟩ := good_of_reach rf st h
  exact ⟨segInv_of_goodShape st pre post hg, orderControlPoints_blocks st,
    fun fps a first hall => freeGrowth fps st a first hall⟩

/-- Witness for C7 at a concrete input: the constructor's core state satisfies the
per-segment count invariant. -/
theorem C7_witness : SegInvB (initCoreState rfEx cfgB) = true :=
  (C7_segment_invariant rfEx (initCoreState rfEx cfgB) (Reach.init cfgB)).1

/-- C7 counterexample: the claim quantifies over EVERY state reachable by
construction, `add_anchor_point` and `add_free_point`.  Inserting two anchors
directly after the leading edge (both calls legal `add_anchor_point` uses) breaks
the invariant: the second inserted anchor `B` starts a segment but owns no entry in
the segment-order table (`add_anchor_point` wrote `N[order[-2]] = 4`, i.e. `A`'s
entry, instead), so the `B`-to-`A` pair fails the per-segment count check. -/
theorem C7_counterexample :
    SegInvB (addAnchorPoint rfEx apB
      (addAnchorPoint rfEx apA (initCoreState rfEx cfgB))) = false := by
  decide

end PyAirPar
